import Mathlib

/-!
Object-detection reduction harness (`C_code.c`).

A shallow embedding of the C program: the global accumulators and the two
dataset arrays, the dataset generator `initialize_arrays`, the three
reduction loops of `main` (unsynchronised, critical-section, sequential),
the two result printers and the timing report.

Conventions of the embedding.

* C `int` counters are mathematical integers (`Int`); the 32-bit counter of
  the sequential loop is modelled separately (`sequential_body32`) and shown
  to agree with the unbounded one for every array length below `2^31`.
* `float` is a type `F`, `double` a type `D`.  Their arithmetic is whatever
  `+`, `-`, `/` the types carry; conversions between number types and the
  `%.2f` formatter are the fields of `Conv`.  Nothing is assumed about these
  operations unless a theorem says so.  Two instances are given: `Binary32`,
  the finite IEEE single-precision values with round-to-nearest-even casts and
  division, and exact arithmetic (`F = D = ℚ`, `exact_conv`).
* The wall clock is a component of the state; it moves on while a stretch
  of `main` runs, by what the environment (`Run.elapse`) decides, and
  `omp_get_wtime` reads it.
* The array index `int i` ranges over `0 .. N-1` and is a `Nat`.
* The C library generator is a step function `rand : G → Int × G` on a
  generator state, `srand` builds that state from a seed.
-/

namespace ObjectDetection

/-! ## Constants and global state -/

/-- The macro `NUM_THREADS`. -/
def NUM_THREADS : Nat := 8

/-- The macro `NUM_OBJECTS`. -/
def NUM_OBJECTS : Nat := 90000000

/-- The global variables of the program: six accumulators and two arrays. -/
structure Globals (F D : Type) where
  detected_objects_without_race_handling : Int
  detected_objects_with_race_handling : Int
  detected_objects_sequential : Int
  confidence_score_without_race_handling : D
  confidence_score_with_race_handling : D
  confidence_score_sequential : D
  detection_results : Nat → Int
  confidence_scores : Nat → F

/-- Conversions between the number types, and the `%.2f` formatter. -/
structure Conv (F D : Type) where
  /-- The cast `(float)n` of an `int`. -/
  float_of_int : Int → F
  /-- The promotion of a `float` to `double`. -/
  double_of_float : F → D
  /-- The promotion of an `int` to `double`. -/
  double_of_int : Int → D
  /-- The text `printf` produces for a `double` under `%.2f`. -/
  fmt_2f : D → String

/-- Static storage is zero-initialised; the six accumulators are also
initialised explicitly to `0` and `0.0`. -/
def initial_globals (F D : Type) [Zero F] [Zero D] : Globals F D where
  detected_objects_without_race_handling := 0
  detected_objects_with_race_handling := 0
  detected_objects_sequential := 0
  confidence_score_without_race_handling := 0
  confidence_score_with_race_handling := 0
  confidence_score_sequential := 0
  detection_results := fun _ => 0
  confidence_scores := fun _ => 0

/-! ## Single precision -/

/-- Round to the nearest integer, ties to the even one. -/
def round_half_even (m : ℚ) : Int :=
  if m - Int.floor m < 1 / 2 then Int.floor m
  else if 1 / 2 < m - Int.floor m then Int.floor m + 1
  else if Int.floor m % 2 = 0 then Int.floor m
  else Int.floor m + 1

/-- Rounding of a positive rational to a 24-bit significand. -/
def round_significand (q : ℚ) : ℚ :=
  (round_half_even (q / 2 ^ (Int.log 2 q - 23)) : ℚ) * 2 ^ (Int.log 2 q - 23)

/-- Round to nearest, ties to even, binary32 without exponent bounds. -/
def round_binary32 (q : ℚ) : ℚ :=
  if 0 < q then round_significand q
  else if q < 0 then - round_significand (-q)
  else 0

/-- A finite `float` (IEEE binary32) value, held as the rational number it
denotes.  Infinities, NaN and the exponent range are not modelled: the values
the program forms, integers of magnitude at most `2^31` and quotients of two
of them, lie inside the normal range of binary32. -/
structure Binary32 where
  val : ℚ

/-- The value `0.0f`, the content of zero-initialised storage. -/
instance instZeroBinary32 : Zero Binary32 := ⟨⟨0⟩⟩

/-- The quotient of two `float` values, correctly rounded. -/
instance instDivBinary32 : Div Binary32 :=
  ⟨fun x y => ⟨round_binary32 (x.val / y.val)⟩⟩

/-- The cast `(float)n` of an `int`: the nearest binary32 value. -/
def Binary32.of_int (n : Int) : Binary32 := ⟨round_binary32 (n : ℚ)⟩

/-- The conversions of a program whose `float` is binary32; the `double` side
is left open. -/
def binary32_conv {D : Type} (double_of_float : Binary32 → D) (double_of_int : Int → D)
    (fmt_2f : D → String) : Conv Binary32 D where
  float_of_int := Binary32.of_int
  double_of_float := double_of_float
  double_of_int := double_of_int
  fmt_2f := fmt_2f

section Reduction

variable {F D : Type}

/-- The function `detect_object`: the stored flag of an object. -/
def detect_object (g : Globals F D) (obj_id : Nat) : Int :=
  g.detection_results obj_id

/-- The function `compute_confidence_score`: the stored score, returned as a
`double`. -/
def compute_confidence_score (cv : Conv F D) (g : Globals F D) (obj_id : Nat) : D :=
  cv.double_of_float (g.confidence_scores obj_id)

/-! ## The sequential loop -/

/-- One iteration of the sequential loop of `main`. -/
def sequential_body [Add D] (cv : Conv F D) (g : Globals F D) (i : Nat) : Globals F D :=
  let is_detected := detect_object g i
  if is_detected ≠ 0 then
    { g with
      detected_objects_sequential := g.detected_objects_sequential + 1
      confidence_score_sequential :=
        g.confidence_score_sequential + compute_confidence_score cv g i }
  else g

/-- The sequential loop `for (int i = 0; i < N; i++)` of `main`. -/
def sequential_loop [Add D] (cv : Conv F D) (N : Nat) (g : Globals F D) : Globals F D :=
  (List.range N).foldl (sequential_body cv) g

/-- The value of a mathematical integer stored in a two's-complement 32-bit
`int`. -/
def wrap_int32 (x : Int) : Int :=
  (x + 2147483648) % 4294967296 - 2147483648

/-- One iteration of the sequential loop with the counter kept in a 32-bit
`int`: the increment is taken modulo `2^32`. -/
def sequential_body32 [Add D] (cv : Conv F D) (g : Globals F D) (i : Nat) : Globals F D :=
  let is_detected := detect_object g i
  if is_detected ≠ 0 then
    { g with
      detected_objects_sequential := wrap_int32 (g.detected_objects_sequential + 1)
      confidence_score_sequential :=
        g.confidence_score_sequential + compute_confidence_score cv g i }
  else g

/-- The sequential loop with the 32-bit counter. -/
def sequential_loop32 [Add D] (cv : Conv F D) (N : Nat) (g : Globals F D) : Globals F D :=
  (List.range N).foldl (sequential_body32 cv) g

/-- The detected entries of the first `N` indices, in increasing order. -/
def detected_indices (g : Globals F D) (N : Nat) : List Nat :=
  (List.range N).filter (fun i => decide (g.detection_results i = 1))

/-- The number of entries of `l` whose flag is nonzero: the iterations over
`l` that enter the guarded block. -/
def hit_count (flags : Nat → Int) (l : List Nat) : Nat :=
  (l.filter (fun i => decide (flags i ≠ 0))).length

/-! ## The critical-section loop -/

/-- One iteration of the second parallel loop of `main`: the test of the
flag, then the `omp critical` block, which runs as one indivisible update. -/
def critical_body [Add D] (cv : Conv F D) (g : Globals F D) (i : Nat) : Globals F D :=
  let is_detected := detect_object g i
  if is_detected ≠ 0 then
    { g with
      detected_objects_without_race_handling := g.detected_objects_without_race_handling + 1
      confidence_score_without_race_handling :=
        g.confidence_score_without_race_handling + compute_confidence_score cv g i }
  else g

/-- The second parallel loop of `main`, its iterations executed in the order
`order` (the order in which the team of threads gets through them). -/
def critical_loop [Add D] (cv : Conv F D) (order : List Nat) (g : Globals F D) :
    Globals F D :=
  order.foldl (critical_body cv) g


/-! ## The unsynchronised loop -/

/-- Where a thread stands inside one iteration of the first parallel loop.
The statement `detected_objects_with_race_handling ++` is a load followed by a
store of the loaded value plus one; the `+=` on the score likewise. -/
inductive Phase (D : Type) where
  /-- about to evaluate `detect_object(i)` and test it -/
  | at_test : Phase D
  /-- flag was nonzero, about to load the counter -/
  | at_count : Phase D
  /-- the counter was loaded as `r`, about to store `r + 1` -/
  | loaded_count (r : Int) : Phase D
  /-- about to load the score accumulator -/
  | at_score : Phase D
  /-- the score accumulator was loaded as `s`, about to store `s + score` -/
  | loaded_score (s : D) : Phase D

/-- One thread of the team: the iterations it still has to run (the first one
is the current one) and its position inside the current iteration. -/
structure Worker (D : Type) where
  todo : List Nat
  phase : Phase D

/-- One memory action of one thread of the first parallel loop. -/
def racy_step [Add D] (cv : Conv F D) (g : Globals F D) (wk : Worker D) :
    Globals F D × Worker D :=
  match wk.todo with
  | [] => (g, wk)
  | i :: rest =>
    match wk.phase with
    | Phase.at_test =>
      let is_detected := detect_object g i
      if is_detected ≠ 0 then (g, { todo := i :: rest, phase := Phase.at_count })
      else (g, { todo := rest, phase := Phase.at_test })
    | Phase.at_count =>
      (g, { todo := i :: rest,
            phase := Phase.loaded_count g.detected_objects_with_race_handling })
    | Phase.loaded_count r =>
      ({ g with detected_objects_with_race_handling := r + 1 },
       { todo := i :: rest, phase := Phase.at_score })
    | Phase.at_score =>
      (g, { todo := i :: rest,
            phase := Phase.loaded_score g.confidence_score_with_race_handling })
    | Phase.loaded_score s =>
      ({ g with confidence_score_with_race_handling := s + compute_confidence_score cv g i },
       { todo := rest, phase := Phase.at_test })

/-- One step of the team: thread `w` performs its next memory action (a
thread number outside the team does nothing). -/
def team_step [Add D] (cv : Conv F D) (st : Globals F D × List (Worker D)) (w : Nat) :
    Globals F D × List (Worker D) :=
  match st.2[w]? with
  | none => st
  | some wk => ((racy_step cv st.1 wk).1, st.2.set w (racy_step cv st.1 wk).2)

/-- The team at the start of the parallel region: thread `w` owns the
iterations `chunks[w]`, in that order. -/
def team_start (D : Type) (chunks : List (List Nat)) : List (Worker D) :=
  chunks.map (fun c => { todo := c, phase := Phase.at_test })

/-- Enough further steps for every thread to reach the end of its chunk (an
iteration takes at most five actions): the barrier that ends the region. -/
def run_to_barrier (chunks : List (List Nat)) : List Nat :=
  ((List.range chunks.length).map
    (fun w => List.replicate (5 * (chunks.getD w []).length) w)).flatten

/-- The team state when the parallel region ends, for the interleaving
`schedule` of the threads' actions. -/
def racy_team [Add D] (cv : Conv F D) (chunks : List (List Nat)) (schedule : List Nat)
    (g : Globals F D) : Globals F D × List (Worker D) :=
  (schedule ++ run_to_barrier chunks).foldl (team_step cv) (g, team_start D chunks)

/-- The first parallel loop of `main`: the globals when the region ends. -/
def racy_loop [Add D] (cv : Conv F D) (chunks : List (List Nat)) (schedule : List Nat)
    (g : Globals F D) : Globals F D :=
  (racy_team cv chunks schedule g).1

/-- The guarded count increments a thread has not yet stored: those of the
iterations after the current one, and that of the current one until its store
is done. -/
def pending (flags : Nat → Int) (wk : Worker D) : Nat :=
  match wk.todo, wk.phase with
  | [], _ => 0
  | i :: rest, Phase.at_test => hit_count flags (i :: rest)
  | _ :: rest, Phase.at_count => hit_count flags rest + 1
  | _ :: rest, Phase.loaded_count _ => hit_count flags rest + 1
  | _ :: rest, Phase.at_score => hit_count flags rest
  | _ :: rest, Phase.loaded_score _ => hit_count flags rest

/-- The pending increments of the whole team. -/
def team_pending (flags : Nat → Int) (ws : List (Worker D)) : Nat :=
  (ws.map (pending flags)).sum

/-- The invariant of the unsynchronised loop, for the bound `T`: the counter
plus the increments still pending does not exceed `T`, and neither does any
value a thread holds between its load and its store. -/
def racy_inv (flags : Nat → Int) (T : Int) (st : Globals F D × List (Worker D)) : Prop :=
  st.1.detection_results = flags ∧
  st.1.detected_objects_with_race_handling + (team_pending flags st.2 : Int) ≤ T ∧
  ∀ wk, wk ∈ st.2 → ∀ r, wk.phase = Phase.loaded_count r →
    r + (team_pending flags st.2 : Int) ≤ T

/-- A bound on the number of actions a thread still has to perform. -/
def steps_left (wk : Worker D) : Nat :=
  match wk.todo, wk.phase with
  | [], _ => 0
  | _ :: rest, Phase.at_test => 5 * rest.length + 5
  | _ :: rest, Phase.at_count => 5 * rest.length + 4
  | _ :: rest, Phase.loaded_count _ => 5 * rest.length + 3
  | _ :: rest, Phase.at_score => 5 * rest.length + 2
  | _ :: rest, Phase.loaded_score _ => 5 * rest.length + 1

/-- The bound `steps_left` of thread `v` of a team (0 outside the team). -/
def team_left (ws : List (Worker D)) (v : Nat) : Nat :=
  match ws[v]? with
  | none => 0
  | some wk => steps_left wk

end Reduction

/-! ## The library generator and the dataset -/

/-- The parts of `<stdlib.h>` the program uses, over a generator state `G`. -/
structure Libc (G : Type) where
  RAND_MAX : Int
  srand : Nat → G
  rand : G → Int × G

/-- The state of a run: the globals, the generator, the wall-clock time, the
two output streams and the files written so far. -/
structure World (G F D : Type) where
  globals : Globals F D
  rng : G
  clock : D
  stdout : String
  stderr : String
  files : String → Option String

section Program

variable {G F D : Type}

/-- The generator state after `k` calls of `rand`. -/
def rng_after (lib : Libc G) (s : G) : Nat → G
  | 0 => s
  | k + 1 => (lib.rand (rng_after lib s k)).2

/-- The value returned by call number `k` (from `0`) of `rand`. -/
def draw (lib : Libc G) (s : G) (k : Nat) : Int :=
  (lib.rand (rng_after lib s k)).1

/-- The call `srand(seed)`. -/
def srand_call (lib : Libc G) (seed : Nat) (w : World G F D) : World G F D :=
  { w with rng := lib.srand seed }

/-- One iteration of the loop of `initialize_arrays`; `%` is the C remainder. -/
def initialize_arrays_body [Div F] (lib : Libc G) (cv : Conv F D) (w : World G F D)
    (i : Nat) : World G F D :=
  let r1 := lib.rand w.rng
  let r2 := lib.rand r1.2
  { w with
    rng := r2.2
    globals :=
      { w.globals with
        detection_results := Function.update w.globals.detection_results i (Int.tmod r1.1 2)
        confidence_scores :=
          Function.update w.globals.confidence_scores i
            (cv.float_of_int r2.1 / cv.float_of_int lib.RAND_MAX) } }

/-- The function `initialize_arrays`, for arrays of length `N`. -/
def initialize_arrays [Div F] (lib : Libc G) (cv : Conv F D) (N : Nat) (w : World G F D) :
    World G F D :=
  (List.range N).foldl (initialize_arrays_body lib cv) w


/-! ## Output -/

/-- A `printf` call whose output is `text`. -/
def printf (w : World G F D) (text : String) : World G F D :=
  { w with stdout := w.stdout ++ text }

/-- A `fprintf` call on the open file `filename` whose output is `text`. -/
def fprintf (filename : String) (w : World G F D) (text : String) : World G F D :=
  { w with files := Function.update w.files filename (some ((w.files filename).getD "" ++ text)) }

/-- The text of an `int` under `%d`. -/
def fmt_d (n : Int) : String := toString n

/-- The function `print_detection_results`. -/
def print_detection_results (cv : Conv F D) (w : World G F D) : World G F D :=
  let g := w.globals
  let w := printf w "\nDetection results:\n"
  let w := printf w ("Total detected objects (with race condition handling): "
    ++ fmt_d g.detected_objects_without_race_handling ++ "\n")
  let w := printf w ("Total confidence score (with race condition handling): "
    ++ cv.fmt_2f g.confidence_score_without_race_handling ++ "\n")
  let w := printf w ("Total detected objects (without race condition handling): "
    ++ fmt_d g.detected_objects_with_race_handling ++ "\n")
  let w := printf w ("Total confidence score (without race condition handling): "
    ++ cv.fmt_2f g.confidence_score_with_race_handling ++ "\n")
  let w := printf w ("Total detected objects (sequential): "
    ++ fmt_d g.detected_objects_sequential ++ "\n")
  let w := printf w ("Total confidence score (sequential): "
    ++ cv.fmt_2f g.confidence_score_sequential ++ "\n")
  w

/-- The function `write_detection_results_to_file`.  `fopen_error filename`
is `none` when `fopen(filename, "w")` succeeds (the file is then empty) and
the message of `errno` when it returns `NULL`; `perror` writes its argument,
a colon and that message to the standard error stream. -/
def write_detection_results_to_file (cv : Conv F D) (fopen_error : String → Option String)
    (filename : String) (w : World G F D) : World G F D :=
  match fopen_error filename with
  | some msg => { w with stderr := w.stderr ++ ("Error opening file: " ++ msg ++ "\n") }
  | none =>
    let g := w.globals
    let w : World G F D := { w with files := Function.update w.files filename (some "") }
    let w := fprintf filename w "Detection results:\n"
    let w := fprintf filename w ("Total detected objects (without race condition handling): "
      ++ fmt_d g.detected_objects_without_race_handling ++ "\n")
    let w := fprintf filename w ("Total confidence score (without race condition handling): "
      ++ cv.fmt_2f g.confidence_score_without_race_handling ++ "\n")
    let w := fprintf filename w ("Total detected objects (with race condition handling): "
      ++ fmt_d g.detected_objects_with_race_handling ++ "\n")
    let w := fprintf filename w ("Total confidence score (with race condition handling): "
      ++ cv.fmt_2f g.confidence_score_with_race_handling ++ "\n")
    let w := fprintf filename w ("Total detected objects (sequential): "
      ++ fmt_d g.detected_objects_sequential ++ "\n")
    let w := fprintf filename w ("Total confidence score (sequential): "
      ++ cv.fmt_2f g.confidence_score_sequential ++ "\n")
    w

/-! ## The function `main` -/

/-- The stretches of `main` up to the last clock reading.  The three timed
regions are the code between a `start_time` and the following `end_time`
reading: the call `omp_set_num_threads` with the first parallel loop, the same
with the second parallel loop, and the sequential loop. -/
inductive Segment where
  /-- from the start of `main` to the first reading -/
  | startup : Segment
  /-- between the first pair of readings: the unsynchronised loop -/
  | racy_region : Segment
  /-- from the second reading to the third -/
  | before_critical : Segment
  /-- between the second pair of readings: the critical-section loop -/
  | critical_region : Segment
  /-- from the fourth reading to the fifth -/
  | before_sequential : Segment
  /-- between the third pair of readings: the sequential loop -/
  | sequential_region : Segment

/-- What the environment decides during one run: the wall-clock time at which
`main` starts and the time at which each stretch of `main` ends, given the
time at which it begins; the outcome of `fopen`; how the iterations of the
first parallel loop are dealt to the threads and interleaved, and the order in
which the team gets through the iterations of the second one.  The team has
`racy_chunks.length` threads (`omp_set_num_threads(NUM_THREADS)` asks for 8);
in a run of the program the chunks partition `[0, N)` and `critical_order` is
a permutation of `[0, N)`. -/
structure Run (D : Type) where
  clock_start : D
  elapse : Segment → D → D
  fopen_error : String → Option String
  racy_chunks : List (List Nat)
  racy_schedule : List Nat
  critical_order : List Nat

/-- The three local variables of `main` holding the measured times. -/
structure Timings (D : Type) where
  execution_time_with_race_handling : D
  execution_time_without_race_handling : D
  execution_time_sequential : D

/-- The state in which `main` starts, at wall-clock time `clock_start`. -/
def initial_world [Zero F] [Zero D] (lib : Libc G) (clock_start : D) : World G F D where
  globals := initial_globals F D
  rng := lib.srand 1
  clock := clock_start
  stdout := ""
  stderr := ""
  files := fun _ => none

/-- The call `omp_get_wtime()`: the wall-clock time of the moment. -/
def omp_get_wtime (w : World G F D) : D := w.clock

/-- The wall clock moves on while stretch `seg` of `main` runs. -/
def pass_time (run : Run D) (seg : Segment) (w : World G F D) : World G F D :=
  { w with clock := run.elapse seg w.clock }

/-- The start of `main`, up to the first clock reading: seeding,
`initialize_arrays` and the first announcement. -/
def main_startup [Zero F] [Zero D] [Div F] (lib : Libc G) (cv : Conv F D)
    (run : Run D) (N : Nat) : World G F D :=
  let w : World G F D := initial_world lib run.clock_start
  let w := srand_call lib 42 w
  let w := initialize_arrays lib cv N w
  let w := printf w "\nRunning object detection with race condition handling:\n"
  pass_time run Segment.startup w

/-- The first part of `main`: the start, then the three announced loops, each
between the two clock readings whose difference is its measured time. -/
def main_loops [Zero F] [Zero D] [Add D] [Sub D] [Div F] (lib : Libc G) (cv : Conv F D)
    (run : Run D) (N : Nat) : World G F D × Timings D :=
  let w := main_startup lib cv run N
  let start_time := omp_get_wtime w
  let w := pass_time run Segment.racy_region
    { w with globals := racy_loop cv run.racy_chunks run.racy_schedule w.globals }
  let end_time := omp_get_wtime w
  let execution_time_with_race_handling := end_time - start_time
  let w := printf w "\nRunning object detection without race condition handling:\n"
  let w := pass_time run Segment.before_critical w
  let start_time := omp_get_wtime w
  let w := pass_time run Segment.critical_region
    { w with globals := critical_loop cv run.critical_order w.globals }
  let end_time := omp_get_wtime w
  let execution_time_without_race_handling := end_time - start_time
  let w := printf w "\nRunning sequential object detection:\n"
  let w := pass_time run Segment.before_sequential w
  let start_time := omp_get_wtime w
  let w := pass_time run Segment.sequential_region
    { w with globals := sequential_loop cv N w.globals }
  let end_time := omp_get_wtime w
  let execution_time_sequential := end_time - start_time
  (w, { execution_time_with_race_handling := execution_time_with_race_handling
        execution_time_without_race_handling := execution_time_without_race_handling
        execution_time_sequential := execution_time_sequential })

/-- The last part of `main`: runtimes, speedups and efficiencies. -/
def main_report [Div D] (cv : Conv F D) (t : Timings D) (w : World G F D) : World G F D :=
  let w := printf w ("\nRuntime with race condition handling: "
    ++ cv.fmt_2f t.execution_time_with_race_handling ++ " seconds\n")
  let w := printf w ("Runtime without race condition handling: "
    ++ cv.fmt_2f t.execution_time_without_race_handling ++ " seconds\n")
  let w := printf w ("Runtime sequential: "
    ++ cv.fmt_2f t.execution_time_sequential ++ " seconds\n")
  let speedup := t.execution_time_sequential / t.execution_time_without_race_handling
  let w := printf w ("Speedup without race handling: " ++ cv.fmt_2f speedup ++ "\n")
  let efficiency := speedup / cv.double_of_int NUM_THREADS
  let w := printf w ("Efficiency without race handling: " ++ cv.fmt_2f efficiency ++ "\n")
  let speedup := t.execution_time_sequential / t.execution_time_with_race_handling
  let w := printf w ("Speedup with race handling: " ++ cv.fmt_2f speedup ++ "\n")
  let efficiency := speedup / cv.double_of_int NUM_THREADS
  let w := printf w ("Efficiency with race handling: " ++ cv.fmt_2f efficiency ++ "\n")
  w

/-- The function `main` for arrays of length `N` (`NUM_OBJECTS` in the
source): the exit code and the final state. -/
def main [Zero F] [Zero D] [Add D] [Sub D] [Div D] [Div F] (lib : Libc G) (cv : Conv F D)
    (run : Run D) (N : Nat) : Int × World G F D :=
  let loops := main_loops lib cv run N
  let w := print_detection_results cv loops.1
  let w := write_detection_results_to_file cv run.fopen_error "detection_results.txt" w
  let w := main_report cv loops.2 w
  (0, w)

end Program

/-! ## Concrete data for running the model -/

/-- Exact arithmetic: both number types are the rationals, conversions are
the inclusions, and `%.2f` rounds half up to two decimals. -/
def exact_conv : Conv ℚ ℚ where
  float_of_int := fun n => (n : ℚ)
  double_of_float := fun x => x
  double_of_int := fun n => (n : ℚ)
  fmt_2f := fun q =>
    let n := (Int.floor (|q| * 100 + 1 / 2)).toNat
    (if q < 0 then "-" else "") ++ toString (n / 100) ++ "."
      ++ (if n % 100 < 10 then "0" else "") ++ toString (n % 100)

/-- A linear congruential generator of the form of the C standard's sample
`rand`, with a 31-bit state. -/
def lcg : Libc Nat where
  RAND_MAX := 2147483647
  srand := fun seed => seed
  rand := fun s =>
    let s1 := (1103515245 * s + 12345) % 2147483648
    ((s1 : Int), s1)

/-- A dataset of four objects (flags `1, 0, 1, 1`) with all accumulators at
zero. -/
def sample_globals : Globals ℚ ℚ :=
  { initial_globals ℚ ℚ with
    detection_results := fun i => [1, 0, 1, 1].getD i 0
    confidence_scores := fun i => [1 / 2, 1 / 4, 3 / 4, 1].getD i 0 }

/-- A state as the three loops may leave it on the dataset of four objects:
the critical-section and the sequential loop counted 3 (score sum 9/4), the
unsynchronised loop lost one update (count 2, score sum 5/4). -/
def sample_results : World Nat ℚ ℚ where
  globals :=
    { sample_globals with
      detected_objects_without_race_handling := 3
      detected_objects_with_race_handling := 2
      detected_objects_sequential := 3
      confidence_score_without_race_handling := 9 / 4
      confidence_score_with_race_handling := 5 / 4
      confidence_score_sequential := 9 / 4 }
  rng := 0
  clock := 0
  stdout := ""
  stderr := ""
  files := fun _ => none

/-- A dataset whose objects are all detected, each with score 1/2, and all
accumulators at zero. -/
def all_detected : Globals ℚ ℚ :=
  { initial_globals ℚ ℚ with
    detection_results := fun _ => 1
    confidence_scores := fun _ => 1 / 2 }

/-- Two iterations dealt to a team of `W` threads: thread 0 runs iteration 0,
thread 1 runs iteration 1, the others have nothing to do. -/
def lost_update_chunks (W : Nat) : List (List Nat) :=
  [0] :: [1] :: List.replicate (W - 2) []

/-- An interleaving in which threads 0 and 1 both load the counter before
either stores it. -/
def lost_update_schedule : List Nat := [0, 0, 1, 1, 0, 1, 0, 0, 1, 1]

/-- A run in which `fopen` fails. -/
def sample_run_fopen_fails : Run ℚ where
  clock_start := 0
  elapse := fun seg t =>
    match seg with
    | Segment.racy_region => t + 2
    | Segment.critical_region => t + 8
    | Segment.sequential_region => t + 4
    | _ => t + 1 / 100
  fopen_error := fun _ => some "Permission denied"
  racy_chunks := [[0, 1], [2, 3]]
  racy_schedule := [0, 1, 0, 1]
  critical_order := [2, 0, 3, 1]

/-! ## Lemmas on the sequential loop -/

section SequentialLemmas

variable {F D : Type} [Add D]

theorem sequential_loop_succ (cv : Conv F D) (k : Nat) (g : Globals F D) :
    sequential_loop cv (k + 1) g = sequential_body cv (sequential_loop cv k g) k := by
  simp [sequential_loop, List.range_succ]

theorem sequential_loop32_succ (cv : Conv F D) (k : Nat) (g : Globals F D) :
    sequential_loop32 cv (k + 1) g = sequential_body32 cv (sequential_loop32 cv k g) k := by
  simp [sequential_loop32, List.range_succ]

theorem sequential_body_skip (cv : Conv F D) (g : Globals F D) (i : Nat)
    (h : g.detection_results i = 0) : sequential_body cv g i = g := by
  simp [sequential_body, detect_object, h]

theorem sequential_body_hit (cv : Conv F D) (g : Globals F D) (i : Nat)
    (h : g.detection_results i ≠ 0) :
    sequential_body cv g i =
      { g with
        detected_objects_sequential := g.detected_objects_sequential + 1
        confidence_score_sequential :=
          g.confidence_score_sequential + cv.double_of_float (g.confidence_scores i) } := by
  simp [sequential_body, detect_object, compute_confidence_score, h]

theorem sequential_body32_skip (cv : Conv F D) (g : Globals F D) (i : Nat)
    (h : g.detection_results i = 0) : sequential_body32 cv g i = g := by
  simp [sequential_body32, detect_object, h]

theorem sequential_body32_hit (cv : Conv F D) (g : Globals F D) (i : Nat)
    (h : g.detection_results i ≠ 0) :
    sequential_body32 cv g i =
      { g with
        detected_objects_sequential := wrap_int32 (g.detected_objects_sequential + 1)
        confidence_score_sequential :=
          g.confidence_score_sequential + cv.double_of_float (g.confidence_scores i) } := by
  simp [sequential_body32, detect_object, compute_confidence_score, h]

theorem sequential_loop_arrays (cv : Conv F D) (k : Nat) (g : Globals F D) :
    (sequential_loop cv k g).detection_results = g.detection_results ∧
    (sequential_loop cv k g).confidence_scores = g.confidence_scores := by
  induction k with
  | zero => simp [sequential_loop]
  | succ k ih =>
    rw [sequential_loop_succ]
    by_cases h : (sequential_loop cv k g).detection_results k = 0
    · rw [sequential_body_skip cv _ k h]; exact ih
    · rw [sequential_body_hit cv _ k h]; exact ih

theorem sequential_loop32_arrays (cv : Conv F D) (k : Nat) (g : Globals F D) :
    (sequential_loop32 cv k g).detection_results = g.detection_results ∧
    (sequential_loop32 cv k g).confidence_scores = g.confidence_scores := by
  induction k with
  | zero => simp [sequential_loop32]
  | succ k ih =>
    rw [sequential_loop32_succ]
    by_cases h : (sequential_loop32 cv k g).detection_results k = 0
    · rw [sequential_body32_skip cv _ k h]; exact ih
    · rw [sequential_body32_hit cv _ k h]; exact ih

omit [Add D] in
theorem detected_indices_succ (g : Globals F D) (k : Nat) :
    detected_indices g (k + 1) =
      detected_indices g k ++ (if g.detection_results k = 1 then [k] else []) := by
  unfold detected_indices
  rw [List.range_succ, List.filter_append]
  by_cases h : g.detection_results k = 1 <;> simp [List.filter, h]

/-- The counter after `k` iterations, for flags in `{0, 1}`. -/
theorem sequential_count_aux (cv : Conv F D) (g : Globals F D) (k : Nat)
    (hflags : ∀ i, i < k → g.detection_results i = 0 ∨ g.detection_results i = 1) :
    (sequential_loop cv k g).detected_objects_sequential =
        g.detected_objects_sequential + ∑ i in Finset.range k, g.detection_results i ∧
    (sequential_loop cv k g).detected_objects_sequential =
        g.detected_objects_sequential + ((detected_indices g k).length : Int) := by
  induction k with
  | zero => simp [sequential_loop, detected_indices]
  | succ k ih =>
    have ih := ih (fun i hi => hflags i (Nat.lt_succ_of_lt hi))
    have harr := (sequential_loop_arrays cv k g).1
    rw [sequential_loop_succ, Finset.sum_range_succ, detected_indices_succ]
    rcases hflags k (Nat.lt_succ_self k) with h | h
    · rw [sequential_body_skip cv _ k (by rw [harr]; exact h)]
      simp [h, ih.1, ih.2.symm]
    · rw [sequential_body_hit cv _ k (by rw [harr, h]; decide)]
      simp only [h, if_true, List.length_append, List.length_singleton, Nat.cast_add,
        Nat.cast_one]
      constructor
      · rw [ih.1]; ring
      · rw [ih.2]; ring

/-- The score accumulator after `k` iterations, for flags in `{0, 1}`. -/
theorem sequential_score_aux (cv : Conv F D) (g : Globals F D) (k : Nat)
    (hflags : ∀ i, i < k → g.detection_results i = 0 ∨ g.detection_results i = 1) :
    (sequential_loop cv k g).confidence_score_sequential =
      ((detected_indices g k).map (fun i => cv.double_of_float (g.confidence_scores i))).foldl
        (fun acc s => acc + s) g.confidence_score_sequential := by
  induction k with
  | zero => simp [sequential_loop, detected_indices]
  | succ k ih =>
    have ih := ih (fun i hi => hflags i (Nat.lt_succ_of_lt hi))
    have harr := sequential_loop_arrays cv k g
    rw [sequential_loop_succ, detected_indices_succ]
    rcases hflags k (Nat.lt_succ_self k) with h | h
    · rw [sequential_body_skip cv _ k (by rw [harr.1]; exact h)]
      simp [h, ih]
    · rw [sequential_body_hit cv _ k (by rw [harr.1, h]; decide)]
      simp [h, ih, harr.2, List.foldl_append]

end SequentialLemmas


/-! ## The sequential loop computes the count and the score sum -/

section SequentialTheorems

variable {F D : Type} [Add D]

/-- C1: for every dataset whose flags are all 0 or 1, the sequential loop
started from `detected_objects_sequential = 0` ends with the counter equal to
the sum of `detection_results[i]` over `i < N`, which is the number of indices
`i < N` with `detection_results[i] = 1`. -/
theorem sequential_count_correct (cv : Conv F D) (N : Nat) (g : Globals F D)
    (h0 : g.detected_objects_sequential = 0)
    (hflags : ∀ i, i < N → g.detection_results i = 0 ∨ g.detection_results i = 1) :
    (sequential_loop cv N g).detected_objects_sequential =
        ∑ i in Finset.range N, g.detection_results i ∧
    (sequential_loop cv N g).detected_objects_sequential =
        (((List.range N).filter (fun i => decide (g.detection_results i = 1))).length : Int) := by
  have h := sequential_count_aux cv g N hflags
  rw [h0, zero_add, zero_add] at h
  exact h

/-- C2: for every dataset (flags 0 or 1), the sequential loop started from
`confidence_score_sequential = 0` ends with the accumulator equal to the left
fold of `+`, from `0` and in increasing index order, over the scores (promoted
to `double`) of exactly the indices `i < N` with `detection_results[i] = 1`.
No property of `+` is used. -/
theorem sequential_score_correct [Zero D] (cv : Conv F D) (N : Nat) (g : Globals F D)
    (h0 : g.confidence_score_sequential = 0)
    (hflags : ∀ i, i < N → g.detection_results i = 0 ∨ g.detection_results i = 1) :
    (sequential_loop cv N g).confidence_score_sequential =
      ((((List.range N).filter (fun i => decide (g.detection_results i = 1))).map
          (fun i => cv.double_of_float (g.confidence_scores i))).foldl
        (fun acc s => acc + s) 0) := by
  have h := sequential_score_aux cv g N hflags
  rw [h0] at h
  exact h

/-- Witness of C1 on a dataset of four objects, three of them detected. -/
theorem sequential_count_correct_witness :
    (sample_globals.detected_objects_sequential = 0 ∧
      ∀ i, i < 4 → sample_globals.detection_results i = 0 ∨
        sample_globals.detection_results i = 1) ∧
    (sequential_loop exact_conv 4 sample_globals).detected_objects_sequential = 3 := by
  refine ⟨⟨rfl, by decide⟩, ?_⟩
  rw [(sequential_count_correct exact_conv 4 sample_globals rfl (by decide)).2]
  decide

/-- Witness of C2 on the same dataset: the detected scores are 1/2, 3/4, 1. -/
theorem sequential_score_correct_witness :
    (sample_globals.confidence_score_sequential = 0 ∧
      ∀ i, i < 4 → sample_globals.detection_results i = 0 ∨
        sample_globals.detection_results i = 1) ∧
    (sequential_loop exact_conv 4 sample_globals).confidence_score_sequential = 9 / 4 := by
  refine ⟨⟨rfl, by decide⟩, ?_⟩
  rw [sequential_score_correct exact_conv 4 sample_globals rfl (by decide)]
  simp [List.range_succ, List.filter, sample_globals, exact_conv]
  norm_num

/-! ## The 32-bit counter -/

omit [Add D] in
theorem hit_count_range_succ (g : Globals F D) (k : Nat) :
    hit_count g.detection_results (List.range (k + 1)) =
      hit_count g.detection_results (List.range k) +
        (if g.detection_results k ≠ 0 then 1 else 0) := by
  unfold hit_count
  rw [List.range_succ, List.filter_append, List.length_append]
  by_cases h : g.detection_results k = 0 <;> simp [List.filter, h]

theorem hit_count_le_length (flags : Nat → Int) (l : List Nat) :
    hit_count flags l ≤ l.length :=
  List.length_filter_le _ _

/-- The counter after `k` iterations is the start value plus the number of
nonzero flags among the first `k`. -/
theorem sequential_count_hits (cv : Conv F D) (g : Globals F D) (k : Nat) :
    (sequential_loop cv k g).detected_objects_sequential =
      g.detected_objects_sequential + (hit_count g.detection_results (List.range k) : Int) := by
  induction k with
  | zero => simp [sequential_loop, hit_count]
  | succ k ih =>
    have harr := (sequential_loop_arrays cv k g).1
    rw [sequential_loop_succ, hit_count_range_succ]
    by_cases h : g.detection_results k = 0
    · rw [sequential_body_skip cv _ k (by rw [harr]; exact h)]
      simp [h, ih]
    · rw [sequential_body_hit cv _ k (by rw [harr]; exact h)]
      simp only [h, ne_eq, not_false_eq_true, if_true, Nat.cast_add, Nat.cast_one]
      rw [ih]; ring

theorem wrap_int32_eq (x : Int) (h1 : -2147483648 ≤ x) (h2 : x < 2147483648) :
    wrap_int32 x = x := by
  unfold wrap_int32
  omega

/-- Below `2^31` iterations the 32-bit counter never wraps. -/
theorem sequential_count32_eq (cv : Conv F D) (g : Globals F D)
    (h0 : g.detected_objects_sequential = 0) (k : Nat) (hk : k < 2147483648) :
    (sequential_loop32 cv k g).detected_objects_sequential =
      (sequential_loop cv k g).detected_objects_sequential := by
  induction k with
  | zero => simp [sequential_loop, sequential_loop32]
  | succ k ih =>
    have ih := ih (by omega)
    have harr := (sequential_loop_arrays cv k g).1
    have harr32 := (sequential_loop32_arrays cv k g).1
    have hc := sequential_count_hits cv g k
    have hle : hit_count g.detection_results (List.range k) ≤ k := by
      simpa using hit_count_le_length g.detection_results (List.range k)
    rw [sequential_loop_succ, sequential_loop32_succ]
    by_cases h : g.detection_results k = 0
    · rw [sequential_body_skip cv _ k (by rw [harr]; exact h),
        sequential_body32_skip cv _ k (by rw [harr32]; exact h)]
      exact ih
    · rw [sequential_body_hit cv _ k (by rw [harr]; exact h),
        sequential_body32_hit cv _ k (by rw [harr32]; exact h)]
      simp only
      rw [ih, wrap_int32_eq]
      · rw [hc, h0]; omega
      · rw [hc, h0]; omega

/-- C10: for every dataset of length `N`, the sequential counter started at 0
satisfies `0 ≤ count ≤ k` after `k` iterations (`k ≤ N`); hence when
`N < 2^31`, as for `NUM_OBJECTS = 90000000`, every increment stays at or below
`INT_MAX` and the counter kept in a 32-bit `int` (arithmetic modulo `2^32`)
equals the unbounded counter after every iteration. -/
theorem sequential_count_bounded (cv : Conv F D) (N : Nat) (g : Globals F D)
    (h0 : g.detected_objects_sequential = 0) :
    (∀ k, k ≤ N →
      0 ≤ (sequential_loop cv k g).detected_objects_sequential ∧
      (sequential_loop cv k g).detected_objects_sequential ≤ (k : Int)) ∧
    (N < 2147483648 →
      (∀ k, k < N → (sequential_loop cv k g).detected_objects_sequential + 1 ≤ 2147483647) ∧
      (∀ k, k ≤ N →
        (sequential_loop32 cv k g).detected_objects_sequential =
          (sequential_loop cv k g).detected_objects_sequential) ∧
      (sequential_loop32 cv N g).detected_objects_sequential % 4294967296 =
        (sequential_loop cv N g).detected_objects_sequential) ∧
    NUM_OBJECTS < 2147483648 := by
  have hb : ∀ k, 0 ≤ (sequential_loop cv k g).detected_objects_sequential ∧
      (sequential_loop cv k g).detected_objects_sequential ≤ (k : Int) := by
    intro k
    have hc := sequential_count_hits cv g k
    have hle : hit_count g.detection_results (List.range k) ≤ k := by
      simpa using hit_count_le_length g.detection_results (List.range k)
    rw [hc, h0]
    omega
  refine ⟨fun k _ => hb k, fun hN => ⟨?_, ?_, ?_⟩, by decide⟩
  · intro k hk
    have := (hb k).2
    omega
  · intro k hk
    exact sequential_count32_eq cv g h0 k (by omega)
  · rw [sequential_count32_eq cv g h0 N hN]
    have := hb N
    omega

/-- Witness of C10 on the dataset of four objects. -/
theorem sequential_count_bounded_witness :
    sample_globals.detected_objects_sequential = 0 ∧ (4 < 2147483648) ∧
    (sequential_loop32 exact_conv 4 sample_globals).detected_objects_sequential =
      (sequential_loop exact_conv 4 sample_globals).detected_objects_sequential :=
  ⟨rfl, by decide,
    ((sequential_count_bounded exact_conv 4 sample_globals rfl).2.1 (by decide)).2.1 4
      (Nat.le_refl 4)⟩

end SequentialTheorems

/-! ## The critical-section loop agrees with the sequential loop -/

theorem hit_count_cons (flags : Nat → Int) (i : Nat) (rest : List Nat) :
    hit_count flags (i :: rest) = hit_count flags rest + (if flags i ≠ 0 then 1 else 0) := by
  unfold hit_count
  by_cases h : flags i = 0 <;> simp [List.filter, h]

theorem hit_count_perm (flags : Nat → Int) {l1 l2 : List Nat} (h : l1.Perm l2) :
    hit_count flags l1 = hit_count flags l2 :=
  (h.filter _).length_eq

section CriticalTheorems

variable {F D : Type}

theorem critical_body_skip [Add D] (cv : Conv F D) (g : Globals F D) (i : Nat)
    (h : g.detection_results i = 0) : critical_body cv g i = g := by
  simp [critical_body, detect_object, h]

theorem critical_body_hit [Add D] (cv : Conv F D) (g : Globals F D) (i : Nat)
    (h : g.detection_results i ≠ 0) :
    critical_body cv g i =
      { g with
        detected_objects_without_race_handling :=
          g.detected_objects_without_race_handling + 1
        confidence_score_without_race_handling :=
          g.confidence_score_without_race_handling +
            cv.double_of_float (g.confidence_scores i) } := by
  simp [critical_body, detect_object, compute_confidence_score, h]

theorem critical_body_arrays [Add D] (cv : Conv F D) (g : Globals F D) (i : Nat) :
    (critical_body cv g i).detection_results = g.detection_results ∧
    (critical_body cv g i).confidence_scores = g.confidence_scores := by
  by_cases h : g.detection_results i = 0
  · rw [critical_body_skip cv g i h]; exact ⟨rfl, rfl⟩
  · rw [critical_body_hit cv g i h]; exact ⟨rfl, rfl⟩

/-- Two guarded updates commute when the addition of scores is associative
and commutative. -/
theorem critical_body_comm [Add D] (cv : Conv F D)
    (hassoc : ∀ a b c : D, a + b + c = a + (b + c)) (hcomm : ∀ a b : D, a + b = b + a)
    (g : Globals F D) (i j : Nat) :
    critical_body cv (critical_body cv g i) j = critical_body cv (critical_body cv g j) i := by
  have hrc : ∀ a b c : D, a + b + c = a + c + b := fun a b c => by
    rw [hassoc, hcomm b c, ← hassoc]
  have hi' : ∀ h : Globals F D, h.detection_results = g.detection_results →
      (h.detection_results i = 0 ↔ g.detection_results i = 0) := fun h e => by rw [e]
  have hj' : ∀ h : Globals F D, h.detection_results = g.detection_results →
      (h.detection_results j = 0 ↔ g.detection_results j = 0) := fun h e => by rw [e]
  have ai := (critical_body_arrays cv g i).1
  have aj := (critical_body_arrays cv g j).1
  by_cases hi : g.detection_results i = 0 <;> by_cases hj : g.detection_results j = 0
  · rw [critical_body_skip cv _ j ((hj' _ ai).2 hj), critical_body_skip cv _ i ((hi' _ aj).2 hi),
      critical_body_skip cv g i hi, critical_body_skip cv g j hj]
  · rw [critical_body_skip cv _ i ((hi' _ aj).2 hi), critical_body_skip cv g i hi]
  · rw [critical_body_skip cv _ j ((hj' _ ai).2 hj), critical_body_skip cv g j hj]
  · rw [critical_body_hit cv _ j (fun e => hj ((hj' _ ai).1 e)),
      critical_body_hit cv _ i (fun e => hi ((hi' _ aj).1 e)),
      critical_body_hit cv g i hi, critical_body_hit cv g j hj]
    simp only [Globals.mk.injEq, and_true, true_and]
    exact hrc _ _ _

/-- The counter of the critical-section loop after the iterations `l`, in any
order and for any addition of scores: the start value plus the number of
nonzero flags among `l`. -/
theorem critical_count_hits [Add D] (cv : Conv F D) (l : List Nat) :
    ∀ g : Globals F D,
      (l.foldl (critical_body cv) g).detection_results = g.detection_results ∧
      (l.foldl (critical_body cv) g).detected_objects_without_race_handling =
        g.detected_objects_without_race_handling + (hit_count g.detection_results l : Int) := by
  induction l with
  | nil => intro g; simp [hit_count]
  | cons i l ih =>
    intro g
    simp only [List.foldl_cons]
    obtain ⟨h1, h2⟩ := ih (critical_body cv g i)
    rw [h1, h2, (critical_body_arrays cv g i).1, hit_count_cons]
    refine ⟨rfl, ?_⟩
    by_cases h : g.detection_results i = 0
    · rw [critical_body_skip cv g i h]
      simp [h]
    · rw [critical_body_hit cv g i h]
      simp only [h, ne_eq, not_false_eq_true, if_true, Nat.cast_add, Nat.cast_one]
      ring

/-- Run over the same list of indices from states with the same arrays, the
critical-section loop and the sequential loop keep their accumulators equal. -/
theorem critical_tracks_sequential [Add D] (cv : Conv F D) (l : List Nat) :
    ∀ g g' : Globals F D,
      g.detection_results = g'.detection_results →
      g.confidence_scores = g'.confidence_scores →
      g.detected_objects_without_race_handling = g'.detected_objects_sequential →
      g.confidence_score_without_race_handling = g'.confidence_score_sequential →
      (l.foldl (critical_body cv) g).detected_objects_without_race_handling =
          (l.foldl (sequential_body cv) g').detected_objects_sequential ∧
      (l.foldl (critical_body cv) g).confidence_score_without_race_handling =
          (l.foldl (sequential_body cv) g').confidence_score_sequential := by
  induction l with
  | nil => intro g g' _ _ hc hs; exact ⟨hc, hs⟩
  | cons i l ih =>
    intro g g' hd hf hc hs
    simp only [List.foldl_cons]
    by_cases h : g.detection_results i = 0
    · rw [critical_body_skip cv g i h, sequential_body_skip cv g' i (by rw [← hd]; exact h)]
      exact ih g g' hd hf hc hs
    · rw [critical_body_hit cv g i h, sequential_body_hit cv g' i (by rw [← hd]; exact h)]
      apply ih
      · exact hd
      · exact hf
      · simp only [hc]
      · simp only [hs, hf]

/-- C3: for every dataset and every order of the guarded updates that is a
permutation of the index range `[0, N)`, each update (flag test, count
increment and score addition) running as one atomic step, the critical-section
loop ends with exactly the count of the sequential loop, whatever the addition
of scores is; and it ends with the same score sum when that addition is exact
(associative and commutative), so up to the reordering of the additions.  Both
loops start from equal accumulators, as in `main` where all are zero. -/
theorem critical_matches_sequential [Add D] (cv : Conv F D) (N : Nat)
    (order : List Nat) (g : Globals F D) (hperm : order.Perm (List.range N))
    (hc : g.detected_objects_without_race_handling = g.detected_objects_sequential) :
    (critical_loop cv order g).detected_objects_without_race_handling =
        (sequential_loop cv N g).detected_objects_sequential ∧
    ((∀ a b c : D, a + b + c = a + (b + c)) → (∀ a b : D, a + b = b + a) →
      g.confidence_score_without_race_handling = g.confidence_score_sequential →
      (critical_loop cv order g).confidence_score_without_race_handling =
        (sequential_loop cv N g).confidence_score_sequential) := by
  constructor
  · unfold critical_loop
    rw [(critical_count_hits cv order g).2, hit_count_perm _ hperm, hc,
      sequential_count_hits]
  · intro hassoc hcomm hs
    haveI : RightCommutative (critical_body cv : Globals F D → Nat → Globals F D) :=
      ⟨fun g i j => critical_body_comm cv hassoc hcomm g i j⟩
    unfold critical_loop sequential_loop
    rw [hperm.foldl_eq g]
    exact (critical_tracks_sequential cv (List.range N) g g rfl rfl hc hs).2

/-- Witness of C3: the order `2, 0, 3, 1` on the dataset of four objects, in
exact arithmetic. -/
theorem critical_matches_sequential_witness :
    ([2, 0, 3, 1].Perm (List.range 4) ∧
      sample_globals.detected_objects_without_race_handling =
        sample_globals.detected_objects_sequential ∧
      (∀ a b c : ℚ, a + b + c = a + (b + c)) ∧ (∀ a b : ℚ, a + b = b + a) ∧
      sample_globals.confidence_score_without_race_handling =
        sample_globals.confidence_score_sequential) ∧
    (critical_loop exact_conv [2, 0, 3, 1] sample_globals).detected_objects_without_race_handling
      = (sequential_loop exact_conv 4 sample_globals).detected_objects_sequential ∧
    (critical_loop exact_conv [2, 0, 3, 1] sample_globals).confidence_score_without_race_handling
      = (sequential_loop exact_conv 4 sample_globals).confidence_score_sequential :=
  ⟨⟨by decide, rfl, add_assoc, add_comm, rfl⟩,
    (critical_matches_sequential exact_conv 4 [2, 0, 3, 1] sample_globals (by decide) rfl).1,
    (critical_matches_sequential exact_conv 4 [2, 0, 3, 1] sample_globals (by decide) rfl).2
      add_assoc add_comm rfl⟩

end CriticalTheorems

/-! ## The dataset generator -/

section GeneratorTheorems

variable {G F D : Type}

theorem initialize_arrays_succ [Div F] (lib : Libc G) (cv : Conv F D) (k : Nat)
    (w : World G F D) :
    initialize_arrays lib cv (k + 1) w =
      initialize_arrays_body lib cv (initialize_arrays lib cv k w) k := by
  simp [initialize_arrays, List.range_succ]

/-- The state after filling the first `k` entries: `2 * k` draws are consumed
and entry `i < k` holds what draws `2 * i` and `2 * i + 1` gave. -/
theorem initialize_arrays_state [Div F] (lib : Libc G) (cv : Conv F D) (k : Nat)
    (w : World G F D) :
    (initialize_arrays lib cv k w).rng = rng_after lib w.rng (2 * k) ∧
    ∀ i, i < k →
      (initialize_arrays lib cv k w).globals.detection_results i =
        Int.tmod (draw lib w.rng (2 * i)) 2 ∧
      (initialize_arrays lib cv k w).globals.confidence_scores i =
        cv.float_of_int (draw lib w.rng (2 * i + 1)) / cv.float_of_int lib.RAND_MAX := by
  induction k with
  | zero =>
    refine ⟨rfl, fun i hi => ?_⟩
    omega
  | succ k ih =>
    obtain ⟨hrng, hent⟩ := ih
    rw [initialize_arrays_succ]
    have e : 2 * (k + 1) = 2 * k + 1 + 1 := by ring
    refine ⟨?_, fun i hi => ?_⟩
    · rw [e]
      show (lib.rand (lib.rand (initialize_arrays lib cv k w).rng).2).2 = _
      rw [hrng]
      rfl
    · by_cases hik : i = k
      · subst hik
        simp only [initialize_arrays_body, hrng, Function.update_same]
        exact ⟨rfl, rfl⟩
      · have hlt : i < k := by omega
        simp only [initialize_arrays_body, Function.update_noteq hik]
        exact hent i hlt

/-- C6: for every seed and every `N`, with `draw k` the `k`-th output (from
0) of the generator after `srand(seed)`, `initialize_arrays` leaves in
`detection_results[i]` the C remainder `draw (2i) % 2`, which is the low bit
`draw (2i) mod 2` of that draw as the draw is nonnegative, and in
`confidence_scores[i]` the quotient `(float)draw (2i+1) / (float)RAND_MAX`,
for every `i < N`; the generator has then been advanced by exactly `2 * N`
draws. -/
theorem initialize_arrays_draws [Div F] (lib : Libc G) (cv : Conv F D) (seed N : Nat)
    (w : World G F D) :
    (∀ i, i < N →
      (initialize_arrays lib cv N (srand_call lib seed w)).globals.detection_results i =
        Int.tmod (draw lib (lib.srand seed) (2 * i)) 2 ∧
      (0 ≤ draw lib (lib.srand seed) (2 * i) →
        (initialize_arrays lib cv N (srand_call lib seed w)).globals.detection_results i =
          draw lib (lib.srand seed) (2 * i) % 2) ∧
      (initialize_arrays lib cv N (srand_call lib seed w)).globals.confidence_scores i =
        cv.float_of_int (draw lib (lib.srand seed) (2 * i + 1)) /
          cv.float_of_int lib.RAND_MAX) ∧
    (initialize_arrays lib cv N (srand_call lib seed w)).rng =
      rng_after lib (lib.srand seed) (2 * N) := by
  have h := initialize_arrays_state lib cv N (srand_call lib seed w)
  have hs : (srand_call lib seed w).rng = lib.srand seed := rfl
  rw [hs] at h
  refine ⟨fun i hi => ⟨(h.2 i hi).1, fun h0 => ?_, (h.2 i hi).2⟩, h.1⟩
  rw [(h.2 i hi).1, Int.tmod_eq_emod h0 (by decide)]

theorem lcg_draw_range (s : Nat) (k : Nat) :
    0 ≤ draw lcg s k ∧ draw lcg s k ≤ lcg.RAND_MAX := by
  simp only [draw, lcg]
  omega

/-- Witness of C6: the generator `lcg` seeded with 42, two objects. -/
theorem initialize_arrays_draws_witness :
    0 ≤ draw lcg (lcg.srand 42) (2 * 1) ∧
    (initialize_arrays lcg exact_conv 2
        (srand_call lcg 42 (initial_world lcg 0))).globals.detection_results 1 =
      draw lcg (lcg.srand 42) (2 * 1) % 2 :=
  ⟨(lcg_draw_range _ _).1,
    ((initialize_arrays_draws lcg exact_conv 42 2 (initial_world lcg 0)).1 1 (by decide)).2.1
      (lcg_draw_range _ _).1⟩

/-! ### Rounding to binary32 -/

theorem round_half_even_int (n : Int) : round_half_even (n : ℚ) = n := by
  simp [round_half_even]

theorem floor_le_round_half_even (m : ℚ) : Int.floor m ≤ round_half_even m := by
  unfold round_half_even
  split_ifs <;> omega

theorem round_half_even_le (m : ℚ) : round_half_even m ≤ Int.floor m + 1 := by
  unfold round_half_even
  split_ifs <;> omega

theorem round_half_even_mono {a b : ℚ} (h : a ≤ b) : round_half_even a ≤ round_half_even b := by
  have hf : Int.floor a ≤ Int.floor b := Int.floor_mono h
  rcases hf.lt_or_eq with hlt | heq
  · calc round_half_even a ≤ Int.floor a + 1 := round_half_even_le a
      _ ≤ Int.floor b := hlt
      _ ≤ round_half_even b := floor_le_round_half_even b
  · have hd : a - Int.floor a ≤ b - Int.floor b := by rw [heq]; linarith
    unfold round_half_even
    rw [heq]
    split_ifs <;> first | omega | (exfalso; linarith)


theorem two_zpow_pos (e : Int) : (0 : ℚ) < 2 ^ e := zpow_pos (by norm_num) e

theorem two_zpow_split (e : Int) : (2 : ℚ) ^ e = 2 ^ (23 : Int) * 2 ^ (e - 23) := by
  rw [← zpow_add₀ (by norm_num : (2 : ℚ) ≠ 0)]
  congr 1
  ring

theorem two_zpow_split_succ (e : Int) : (2 : ℚ) ^ (e + 1) = 2 ^ (24 : Int) * 2 ^ (e - 23) := by
  rw [← zpow_add₀ (by norm_num : (2 : ℚ) ≠ 0)]
  congr 1
  ring

theorem log_bounds (q : ℚ) (hq : 0 < q) :
    (2 : ℚ) ^ Int.log 2 q ≤ q ∧ q < 2 ^ (Int.log 2 q + 1) := by
  have h1 := Int.zpow_log_le_self (b := 2) (r := q) (by norm_num) hq
  have h2 := Int.lt_zpow_succ_log_self (b := 2) (by norm_num) q
  simp only [Nat.cast_ofNat] at h1 h2
  exact ⟨h1, h2⟩

/-- The scaled significand of a positive rational lies in `[2^23, 2^24)`. -/
theorem significand_bounds (q : ℚ) (hq : 0 < q) :
    (2 : ℚ) ^ (23 : Int) ≤ q / 2 ^ (Int.log 2 q - 23) ∧
    q / 2 ^ (Int.log 2 q - 23) ≤ 2 ^ (24 : Int) := by
  obtain ⟨h1, h2⟩ := log_bounds q hq
  have hp := two_zpow_pos (Int.log 2 q - 23)
  rw [two_zpow_split] at h1
  rw [two_zpow_split_succ] at h2
  constructor
  · rw [le_div_iff₀ hp]; exact h1
  · rw [div_le_iff₀ hp]; exact le_of_lt h2

theorem round_significand_bounds (q : ℚ) (hq : 0 < q) :
    (2 : ℚ) ^ Int.log 2 q ≤ round_significand q ∧
    round_significand q ≤ 2 ^ (Int.log 2 q + 1) := by
  obtain ⟨h1, h2⟩ := significand_bounds q hq
  have hp := two_zpow_pos (Int.log 2 q - 23)
  have e23 : ((2 : ℚ) ^ (23 : Int)) = ((8388608 : Int) : ℚ) := by norm_num
  have e24 : ((2 : ℚ) ^ (24 : Int)) = ((16777216 : Int) : ℚ) := by norm_num
  have r1 : (8388608 : Int) ≤ round_half_even (q / 2 ^ (Int.log 2 q - 23)) := by
    rw [← round_half_even_int 8388608]
    exact round_half_even_mono (by rw [← e23]; exact h1)
  have r2 : round_half_even (q / 2 ^ (Int.log 2 q - 23)) ≤ (16777216 : Int) := by
    rw [← round_half_even_int 16777216]
    exact round_half_even_mono (by rw [← e24]; exact h2)
  have r1' : ((8388608 : Int) : ℚ) ≤ (round_half_even (q / 2 ^ (Int.log 2 q - 23)) : ℚ) :=
    Int.cast_le.2 r1
  have r2' : (round_half_even (q / 2 ^ (Int.log 2 q - 23)) : ℚ) ≤ ((16777216 : Int) : ℚ) :=
    Int.cast_le.2 r2
  unfold round_significand
  rw [two_zpow_split, two_zpow_split_succ, e23, e24]
  exact ⟨mul_le_mul_of_nonneg_right r1' hp.le, mul_le_mul_of_nonneg_right r2' hp.le⟩

theorem round_significand_mono {a b : ℚ} (ha : 0 < a) (h : a ≤ b) :
    round_significand a ≤ round_significand b := by
  have hb : 0 < b := lt_of_lt_of_le ha h
  have hlog : Int.log 2 a ≤ Int.log 2 b := Int.log_mono_right ha h
  rcases hlog.lt_or_eq with hlt | heq
  · calc round_significand a ≤ 2 ^ (Int.log 2 a + 1) := (round_significand_bounds a ha).2
      _ ≤ 2 ^ Int.log 2 b := zpow_le_zpow_right₀ (by norm_num) hlt
      _ ≤ round_significand b := (round_significand_bounds b hb).1
  · unfold round_significand
    rw [heq]
    have hp := two_zpow_pos (Int.log 2 b - 23)
    apply mul_le_mul_of_nonneg_right _ hp.le
    exact Int.cast_le.2 (round_half_even_mono (div_le_div_of_nonneg_right h hp.le))

theorem round_significand_pos (q : ℚ) (hq : 0 < q) : 0 < round_significand q :=
  lt_of_lt_of_le (two_zpow_pos _) (round_significand_bounds q hq).1

theorem round_binary32_zero : round_binary32 0 = 0 := by
  simp [round_binary32]

theorem round_binary32_one : round_binary32 1 = 1 := by
  have h : round_significand 1 = 1 := by
    unfold round_significand
    rw [Int.log_one_right]
    have e : (1 : ℚ) / 2 ^ ((0 : Int) - 23) = ((8388608 : Int) : ℚ) := by norm_num
    rw [e, round_half_even_int]
    norm_num
  simp [round_binary32, h]

theorem round_binary32_nonneg {q : ℚ} (hq : 0 ≤ q) : 0 ≤ round_binary32 q := by
  rcases hq.lt_or_eq with h | h
  · simp only [round_binary32, h, if_true]
    exact (round_significand_pos q h).le
  · rw [← h, round_binary32_zero]

/-- Rounding is monotone on the nonnegative rationals. -/
theorem round_binary32_mono {a b : ℚ} (ha : 0 ≤ a) (h : a ≤ b) :
    round_binary32 a ≤ round_binary32 b := by
  rcases ha.lt_or_eq with hpos | hzero
  · have hb : 0 < b := lt_of_lt_of_le hpos h
    simp only [round_binary32, hpos, hb, if_true]
    exact round_significand_mono hpos h
  · rw [← hzero, round_binary32_zero]
    exact round_binary32_nonneg (hzero ▸ h)


theorem log_two_eq (q : ℚ) (e : Int) (hq : 0 < q) (h1 : (2 : ℚ) ^ e ≤ q)
    (h2 : q < (2 : ℚ) ^ (e + 1)) : Int.log 2 q = e := by
  have a1 : e ≤ Int.log 2 q :=
    (Int.zpow_le_iff_le_log (b := 2) (by norm_num) hq).1 (by simpa using h1)
  have a2 : Int.log 2 q < e + 1 :=
    (Int.lt_zpow_iff_log_lt (b := 2) (by norm_num) hq).1 (by simpa using h2)
  omega

/-- The cast `(float)2147483647` is `2147483648.0`. -/
theorem round_binary32_int_max : round_binary32 2147483647 = 2147483648 := by
  have hlog : Int.log 2 (2147483647 : ℚ) = 30 :=
    log_two_eq _ 30 (by norm_num) (by norm_num) (by norm_num)
  have hm : (2147483647 : ℚ) / 2 ^ ((30 : Int) - 23) = 2147483647 / 128 := by norm_num
  have hfloor : Int.floor ((2147483647 : ℚ) / 128) = 16777215 := by
    rw [Int.floor_eq_iff]
    constructor <;> norm_num
  have hr : round_half_even ((2147483647 : ℚ) / 128) = 16777216 := by
    unfold round_half_even
    rw [hfloor]
    norm_num
  have hpos : (0 : ℚ) < 2147483647 := by norm_num
  simp only [round_binary32, hpos, if_true, round_significand, hlog, hm, hr]
  norm_num

/-- C7: with `float` the IEEE binary32 format (casts and division rounded to
nearest, ties to even), for every generator whose draws lie in `[0, RAND_MAX]`,
`RAND_MAX` being a positive `int`, and every `i < N`, after `initialize_arrays`
the flag `detection_results[i]` is 0 or 1 and the score satisfies
`0 ≤ confidence_scores[i] ≤ 1`. -/
theorem initialize_arrays_ranges (lib : Libc G) (double_of_float : Binary32 → D)
    (double_of_int : Int → D) (fmt_2f : D → String) (seed N : Nat)
    (w : World G Binary32 D)
    (hmax : 0 < lib.RAND_MAX ∧ lib.RAND_MAX ≤ 2147483647)
    (hdraw : ∀ k, 0 ≤ draw lib (lib.srand seed) k ∧ draw lib (lib.srand seed) k ≤ lib.RAND_MAX) :
    ∀ i, i < N →
      ((initialize_arrays lib (binary32_conv double_of_float double_of_int fmt_2f) N
          (srand_call lib seed w)).globals.detection_results i = 0 ∨
        (initialize_arrays lib (binary32_conv double_of_float double_of_int fmt_2f) N
          (srand_call lib seed w)).globals.detection_results i = 1) ∧
      0 ≤ ((initialize_arrays lib (binary32_conv double_of_float double_of_int fmt_2f) N
          (srand_call lib seed w)).globals.confidence_scores i).val ∧
      ((initialize_arrays lib (binary32_conv double_of_float double_of_int fmt_2f) N
          (srand_call lib seed w)).globals.confidence_scores i).val ≤ 1 := by
  intro i hi
  have h := (initialize_arrays_state lib (binary32_conv double_of_float double_of_int fmt_2f)
    N (srand_call lib seed w)).2 i hi
  have hs : (srand_call lib seed w).rng = lib.srand seed := rfl
  rw [hs] at h
  have hflag := hdraw (2 * i)
  have hscore := hdraw (2 * i + 1)
  refine ⟨?_, ?_⟩
  · rw [h.1, Int.tmod_eq_emod hflag.1 (by decide)]
    omega
  · rw [h.2]
    show 0 ≤ round_binary32
        (round_binary32 ((draw lib (lib.srand seed) (2 * i + 1) : Int) : ℚ) /
          round_binary32 ((lib.RAND_MAX : Int) : ℚ)) ∧
      round_binary32
        (round_binary32 ((draw lib (lib.srand seed) (2 * i + 1) : Int) : ℚ) /
          round_binary32 ((lib.RAND_MAX : Int) : ℚ)) ≤ 1
    have hr0 : (0 : ℚ) ≤ ((draw lib (lib.srand seed) (2 * i + 1) : Int) : ℚ) :=
      Int.cast_nonneg.2 hscore.1
    have hrm : ((draw lib (lib.srand seed) (2 * i + 1) : Int) : ℚ) ≤
        ((lib.RAND_MAX : Int) : ℚ) := Int.cast_le.2 hscore.2
    have hm1 : (1 : ℚ) ≤ ((lib.RAND_MAX : Int) : ℚ) := by
      have : (1 : Int) ≤ lib.RAND_MAX := hmax.1
      exact_mod_cast this
    have hx0 := round_binary32_nonneg hr0
    have hxy := round_binary32_mono hr0 hrm
    have hy1 : (1 : ℚ) ≤ round_binary32 ((lib.RAND_MAX : Int) : ℚ) := by
      have := round_binary32_mono (by norm_num : (0 : ℚ) ≤ 1) hm1
      rwa [round_binary32_one] at this
    have hy : (0 : ℚ) < round_binary32 ((lib.RAND_MAX : Int) : ℚ) := by linarith
    have hq0 := div_nonneg hx0 hy.le
    have hq1 := (div_le_one hy).2 hxy
    constructor
    · exact round_binary32_nonneg hq0
    · have := round_binary32_mono hq0 hq1
      rwa [round_binary32_one] at this

/-- Witness of C7: the generator `lcg` with binary32 scores, two objects. -/
theorem initialize_arrays_ranges_witness :
    ((0 < lcg.RAND_MAX ∧ lcg.RAND_MAX ≤ 2147483647) ∧
      ∀ k, 0 ≤ draw lcg (lcg.srand 42) k ∧ draw lcg (lcg.srand 42) k ≤ lcg.RAND_MAX) ∧
    ∀ i, i < 2 →
      ((initialize_arrays lcg (binary32_conv (fun x => x.val) (fun n => (n : ℚ))
          exact_conv.fmt_2f) 2
          (srand_call lcg 42 (initial_world lcg 0))).globals.detection_results i = 0 ∨
        (initialize_arrays lcg (binary32_conv (fun x => x.val) (fun n => (n : ℚ))
          exact_conv.fmt_2f) 2
          (srand_call lcg 42 (initial_world lcg 0))).globals.detection_results i = 1) ∧
      0 ≤ ((initialize_arrays lcg (binary32_conv (fun x => x.val) (fun n => (n : ℚ))
          exact_conv.fmt_2f) 2
          (srand_call lcg 42 (initial_world lcg 0))).globals.confidence_scores i).val ∧
      ((initialize_arrays lcg (binary32_conv (fun x => x.val) (fun n => (n : ℚ))
          exact_conv.fmt_2f) 2
          (srand_call lcg 42 (initial_world lcg 0))).globals.confidence_scores i).val ≤ 1 :=
  ⟨⟨⟨by decide, by decide⟩, lcg_draw_range _⟩,
    initialize_arrays_ranges lcg (fun x => x.val) (fun n => (n : ℚ)) exact_conv.fmt_2f 42 2
      (initial_world lcg 0) ⟨by decide, by decide⟩ (lcg_draw_range _)⟩

end GeneratorTheorems

/-! ## Output: the timing report and the report file -/

section OutputTheorems

variable {G F D : Type}

/-- What `main_report` appends to the standard output, for any three times. -/
theorem main_report_stdout [Div D] (cv : Conv F D) (t : Timings D) (w : World G F D) :
    (main_report cv t w).stdout =
      w.stdout ++
        ("\nRuntime with race condition handling: "
          ++ cv.fmt_2f t.execution_time_with_race_handling ++ " seconds\n"
        ++ "Runtime without race condition handling: "
          ++ cv.fmt_2f t.execution_time_without_race_handling ++ " seconds\n"
        ++ "Runtime sequential: "
          ++ cv.fmt_2f t.execution_time_sequential ++ " seconds\n"
        ++ "Speedup without race handling: "
          ++ cv.fmt_2f (t.execution_time_sequential / t.execution_time_without_race_handling)
          ++ "\n"
        ++ "Efficiency without race handling: "
          ++ cv.fmt_2f (t.execution_time_sequential / t.execution_time_without_race_handling
              / cv.double_of_int 8) ++ "\n"
        ++ "Speedup with race handling: "
          ++ cv.fmt_2f (t.execution_time_sequential / t.execution_time_with_race_handling)
          ++ "\n"
        ++ "Efficiency with race handling: "
          ++ cv.fmt_2f (t.execution_time_sequential / t.execution_time_with_race_handling
              / cv.double_of_int 8) ++ "\n") := by
  simp only [main_report, printf, NUM_THREADS, String.append_assoc, Nat.cast_ofNat]

theorem main_report_rest [Div D] (cv : Conv F D) (t : Timings D) (w : World G F D) :
    (main_report cv t w).stderr = w.stderr ∧ (main_report cv t w).files = w.files ∧
    (main_report cv t w).globals = w.globals ∧ (main_report cv t w).rng = w.rng := by
  simp [main_report, printf]

theorem main_loops_io [Zero F] [Zero D] [Add D] [Sub D] [Div F] (lib : Libc G)
    (cv : Conv F D) (run : Run D) (N : Nat) :
    (main_loops lib cv run N).1.stderr = "" ∧
    (main_loops lib cv run N).1.files = fun _ => none := by
  have h : ∀ (k : Nat) (w : World G F D),
      (initialize_arrays lib cv k w).stderr = w.stderr ∧
      (initialize_arrays lib cv k w).files = w.files := by
    intro k w
    induction k with
    | zero => exact ⟨rfl, rfl⟩
    | succ k ih => rw [initialize_arrays_succ]; exact ih
  have h0 := h N (srand_call lib 42 (initial_world lib run.clock_start))
  exact ⟨h0.1, h0.2⟩

theorem print_detection_results_rest (cv : Conv F D) (w : World G F D) :
    (print_detection_results cv w).stderr = w.stderr ∧
    (print_detection_results cv w).files = w.files ∧
    (print_detection_results cv w).globals = w.globals := by
  simp [print_detection_results, printf]

theorem write_fails (cv : Conv F D) (fopen_error : String → Option String)
    (filename msg : String) (w : World G F D) (h : fopen_error filename = some msg) :
    write_detection_results_to_file cv fopen_error filename w =
      { w with stderr := w.stderr ++ ("Error opening file: " ++ msg ++ "\n") } := by
  simp [write_detection_results_to_file, h]

theorem write_stdout (cv : Conv F D) (fopen_error : String → Option String)
    (filename : String) (w : World G F D) :
    (write_detection_results_to_file cv fopen_error filename w).stdout = w.stdout := by
  unfold write_detection_results_to_file
  cases fopen_error filename <;> simp [fprintf]

/-- C9: when `fopen` of the report file fails, `write_detection_results_to_file`
appends the `perror` diagnostic to the standard error stream and changes
nothing else (no file, no accumulator, no standard output); `main` then still
prints the three runtime, two speedup and two efficiency lines after the
detection results, exactly as in the run where the file opens, writes no file,
leaves the globals as the loops left them and returns 0. -/
theorem fopen_failure_nonfatal [Zero F] [Zero D] [Add D] [Sub D] [Div D] [Div F]
    (lib : Libc G) (cv : Conv F D) (run : Run D) (N : Nat) (msg : String)
    (hfail : run.fopen_error "detection_results.txt" = some msg) :
    (∀ w : World G F D,
      write_detection_results_to_file cv run.fopen_error "detection_results.txt" w =
        { w with stderr := w.stderr ++ ("Error opening file: " ++ msg ++ "\n") }) ∧
    (main lib cv run N).1 = 0 ∧
    (main lib cv run N).2.stdout =
      (print_detection_results cv (main_loops lib cv run N).1).stdout ++
        ("\nRuntime with race condition handling: "
          ++ cv.fmt_2f (main_loops lib cv run N).2.execution_time_with_race_handling
          ++ " seconds\n"
        ++ "Runtime without race condition handling: "
          ++ cv.fmt_2f (main_loops lib cv run N).2.execution_time_without_race_handling
          ++ " seconds\n"
        ++ "Runtime sequential: "
          ++ cv.fmt_2f (main_loops lib cv run N).2.execution_time_sequential ++ " seconds\n"
        ++ "Speedup without race handling: "
          ++ cv.fmt_2f ((main_loops lib cv run N).2.execution_time_sequential /
              (main_loops lib cv run N).2.execution_time_without_race_handling) ++ "\n"
        ++ "Efficiency without race handling: "
          ++ cv.fmt_2f ((main_loops lib cv run N).2.execution_time_sequential /
              (main_loops lib cv run N).2.execution_time_without_race_handling /
              cv.double_of_int 8) ++ "\n"
        ++ "Speedup with race handling: "
          ++ cv.fmt_2f ((main_loops lib cv run N).2.execution_time_sequential /
              (main_loops lib cv run N).2.execution_time_with_race_handling) ++ "\n"
        ++ "Efficiency with race handling: "
          ++ cv.fmt_2f ((main_loops lib cv run N).2.execution_time_sequential /
              (main_loops lib cv run N).2.execution_time_with_race_handling /
              cv.double_of_int 8) ++ "\n") ∧
    (main lib cv run N).2.stdout =
      (main lib cv { run with fopen_error := fun _ => none } N).2.stdout ∧
    (main lib cv run N).2.stderr = "Error opening file: " ++ msg ++ "\n" ∧
    (main lib cv run N).2.files = (fun _ => none) ∧
    (main lib cv run N).2.globals = (main_loops lib cv run N).1.globals := by
  have hw := fun w : World G F D =>
    write_fails cv run.fopen_error "detection_results.txt" msg w hfail
  have hmain : (main lib cv run N).2 =
      main_report cv (main_loops lib cv run N).2
        (write_detection_results_to_file cv run.fopen_error "detection_results.txt"
          (print_detection_results cv (main_loops lib cv run N).1)) := rfl
  have hio := main_loops_io lib cv run N
  have hp := print_detection_results_rest cv (main_loops lib cv run N).1
  refine ⟨hw, rfl, ?_, ?_, ?_, ?_, ?_⟩
  · rw [hmain, main_report_stdout, write_stdout]
  · rw [hmain, main_report_stdout, write_stdout]
    show _ = (main_report cv (main_loops lib cv run N).2 _).stdout
    rw [main_report_stdout, write_stdout]
    rfl
  · have hwe : (write_detection_results_to_file cv run.fopen_error "detection_results.txt"
        (print_detection_results cv (main_loops lib cv run N).1)).stderr =
        (print_detection_results cv (main_loops lib cv run N).1).stderr ++
          ("Error opening file: " ++ msg ++ "\n") := by rw [hw]
    rw [hmain, (main_report_rest cv _ _).1, hwe, hp.1, hio.1]
    exact String.empty_append _
  · have hwf : (write_detection_results_to_file cv run.fopen_error "detection_results.txt"
        (print_detection_results cv (main_loops lib cv run N).1)).files =
        (print_detection_results cv (main_loops lib cv run N).1).files := by rw [hw]
    rw [hmain, (main_report_rest cv _ _).2.1, hwf, hp.2.1, hio.2]
  · have hwg : (write_detection_results_to_file cv run.fopen_error "detection_results.txt"
        (print_detection_results cv (main_loops lib cv run N).1)).globals =
        (print_detection_results cv (main_loops lib cv run N).1).globals := by rw [hw]
    rw [hmain, (main_report_rest cv _ _).2.2.1, hwg, hp.2.2]

/-- Witness of C9: a run on four objects in which `fopen` reports
`Permission denied`. -/
theorem fopen_failure_nonfatal_witness :
    sample_run_fopen_fails.fopen_error "detection_results.txt" = some "Permission denied" ∧
    (main lcg exact_conv sample_run_fopen_fails 4).1 = 0 ∧
    (main lcg exact_conv sample_run_fopen_fails 4).2.stderr =
      "Error opening file: " ++ "Permission denied" ++ "\n" :=
  ⟨rfl,
    (fopen_failure_nonfatal lcg exact_conv sample_run_fopen_fails 4 "Permission denied" rfl).2.1,
    (fopen_failure_nonfatal lcg exact_conv sample_run_fopen_fails 4 "Permission denied"
      rfl).2.2.2.2.1⟩

/-- C5 on a concrete state (counts 3, 2, 3): on the standard output the value
3 of `detected_objects_without_race_handling` is labelled `with race condition
handling` and the value 2 of `detected_objects_with_race_handling` is labelled
`without race condition handling`; in the report file the same two values carry
the opposite labels.  The six lines of the two blocks are therefore different
texts, also once the blank line that precedes the heading on the standard
output is set aside. -/
theorem detection_blocks_differ :
    (print_detection_results exact_conv sample_results).stdout =
      "\nDetection results:\n"
      ++ "Total detected objects (with race condition handling): 3\n"
      ++ "Total confidence score (with race condition handling): 2.25\n"
      ++ "Total detected objects (without race condition handling): 2\n"
      ++ "Total confidence score (without race condition handling): 1.25\n"
      ++ "Total detected objects (sequential): 3\n"
      ++ "Total confidence score (sequential): 2.25\n" ∧
    (write_detection_results_to_file exact_conv (fun _ => none) "detection_results.txt"
        sample_results).files "detection_results.txt" =
      some ("Detection results:\n"
      ++ "Total detected objects (without race condition handling): 3\n"
      ++ "Total confidence score (without race condition handling): 2.25\n"
      ++ "Total detected objects (with race condition handling): 2\n"
      ++ "Total confidence score (with race condition handling): 1.25\n"
      ++ "Total detected objects (sequential): 3\n"
      ++ "Total confidence score (sequential): 2.25\n") ∧
    (write_detection_results_to_file exact_conv (fun _ => none) "detection_results.txt"
        sample_results).files "detection_results.txt" ≠
      some ((print_detection_results exact_conv sample_results).stdout.drop 1) := by
  refine ⟨?_, ?_, ?_⟩
  · decide!
  · decide!
  · decide!

end OutputTheorems

/-! ## The unsynchronised loop loses updates, never gains any -/

section RacyTheorems

variable {F D : Type}

theorem pending_at_test (flags : Nat → Int) (l : List Nat) :
    pending flags ({ todo := l, phase := Phase.at_test } : Worker D) = hit_count flags l := by
  cases l with
  | nil => rfl
  | cons i rest => rfl

/-- What one action of a thread does to the counter, to the thread's pending
increments and to the value it holds: either the counter is untouched, or the
thread stores the value it holds plus one and has one increment less pending. -/
theorem racy_step_count [Add D] (cv : Conv F D) (g : Globals F D) (wk : Worker D) :
    (racy_step cv g wk).1.detection_results = g.detection_results ∧
    (((racy_step cv g wk).1.detected_objects_with_race_handling =
          g.detected_objects_with_race_handling ∧
        pending g.detection_results (racy_step cv g wk).2 = pending g.detection_results wk ∧
        ∀ r, (racy_step cv g wk).2.phase = Phase.loaded_count r →
          r = g.detected_objects_with_race_handling ∨ wk.phase = Phase.loaded_count r) ∨
      (∃ r, wk.phase = Phase.loaded_count r ∧
        (racy_step cv g wk).1.detected_objects_with_race_handling = r + 1 ∧
        pending g.detection_results (racy_step cv g wk).2 + 1 = pending g.detection_results wk ∧
        ∀ r', (racy_step cv g wk).2.phase ≠ Phase.loaded_count r')) := by
  obtain ⟨todo, phase⟩ := wk
  cases todo with
  | nil => exact ⟨rfl, Or.inl ⟨rfl, rfl, fun r h => Or.inr h⟩⟩
  | cons i rest =>
    cases phase with
    | at_test =>
      by_cases h : g.detection_results i = 0
      · have e : racy_step cv g { todo := i :: rest, phase := Phase.at_test } =
            (g, { todo := rest, phase := Phase.at_test }) := by
          simp [racy_step, detect_object, h]
        rw [e]
        refine ⟨rfl, Or.inl ⟨rfl, ?_, fun r hr => by cases hr⟩⟩
        rw [pending_at_test, pending_at_test, hit_count_cons]
        simp [h]
      · have e : racy_step cv g { todo := i :: rest, phase := Phase.at_test } =
            (g, { todo := i :: rest, phase := Phase.at_count }) := by
          simp [racy_step, detect_object, h]
        rw [e]
        refine ⟨rfl, Or.inl ⟨rfl, ?_, fun r hr => by cases hr⟩⟩
        rw [pending_at_test, hit_count_cons]
        simp [pending, h]
    | at_count =>
      refine ⟨rfl, Or.inl ⟨rfl, rfl, fun r hr => Or.inl ?_⟩⟩
      simp only [racy_step] at hr
      cases hr
      rfl
    | loaded_count r =>
      exact ⟨rfl, Or.inr ⟨r, rfl, rfl, rfl, fun r' hr => by cases hr⟩⟩
    | at_score =>
      exact ⟨rfl, Or.inl ⟨rfl, rfl, fun r hr => by cases hr⟩⟩
    | loaded_score s =>
      refine ⟨rfl, Or.inl ⟨rfl, ?_, fun r hr => by cases hr⟩⟩
      show pending g.detection_results ({ todo := rest, phase := Phase.at_test } : Worker D) = _
      rw [pending_at_test]
      rfl

theorem team_pending_set (flags : Nat → Int) (ws : List (Worker D)) :
    ∀ (w : Nat) (wk wk' : Worker D), ws[w]? = some wk →
      team_pending flags (ws.set w wk') + pending flags wk =
        team_pending flags ws + pending flags wk' := by
  induction ws with
  | nil => intro w wk wk' h; simp at h
  | cons a ws ih =>
    intro w wk wk' h
    cases w with
    | zero =>
      simp only [List.getElem?_cons_zero, Option.some.injEq] at h
      subst h
      simp only [team_pending, List.set_cons_zero, List.map_cons, List.sum_cons]
      omega
    | succ w =>
      simp only [List.getElem?_cons_succ] at h
      have := ih w wk wk' h
      simp only [team_pending, List.set_cons_succ, List.map_cons, List.sum_cons] at this ⊢
      omega

theorem racy_inv_step [Add D] (cv : Conv F D) (flags : Nat → Int) (T : Int)
    (st : Globals F D × List (Worker D)) (w : Nat) (h : racy_inv flags T st) :
    racy_inv flags T (team_step cv st w) := by
  obtain ⟨g, ws⟩ := st
  obtain ⟨hflags, hcount, hheld⟩ := h
  simp only at hflags hcount hheld
  unfold team_step
  cases hw : ws[w]? with
  | none => exact ⟨hflags, hcount, hheld⟩
  | some wk =>
    simp only [hw]
    have hmem : wk ∈ ws := List.getElem?_mem hw
    have hset := team_pending_set flags ws w wk (racy_step cv g wk).2 hw
    obtain ⟨harr, hstep⟩ := racy_step_count cv g wk
    rw [hflags] at harr hstep
    refine ⟨harr, ?_⟩
    rcases hstep with ⟨hc, hp, hr⟩ | ⟨r, hph, hc, hp, hr⟩
    · have htot : team_pending flags (ws.set w (racy_step cv g wk).2) =
          team_pending flags ws := by omega
      simp only [htot, hc]
      refine ⟨hcount, fun wk1 hwk1 r1 hr1 => ?_⟩
      rcases List.mem_or_eq_of_mem_set hwk1 with hin | heq
      · exact hheld wk1 hin r1 hr1
      · subst heq
        rcases hr r1 hr1 with e | e
        · rw [e]; exact hcount
        · exact hheld wk hmem r1 e
    · have hold := hheld wk hmem r hph
      have htot : (team_pending flags (ws.set w (racy_step cv g wk).2) : Int) + 1 =
          team_pending flags ws := by omega
      simp only [hc]
      refine ⟨by omega, fun wk1 hwk1 r1 hr1 => ?_⟩
      rcases List.mem_or_eq_of_mem_set hwk1 with hin | heq
      · have := hheld wk1 hin r1 hr1
        omega
      · subst heq
        exact absurd hr1 (hr r1)

theorem racy_inv_fold [Add D] (cv : Conv F D) (flags : Nat → Int) (T : Int)
    (schedule : List Nat) :
    ∀ st : Globals F D × List (Worker D), racy_inv flags T st →
      racy_inv flags T (schedule.foldl (team_step cv) st) := by
  induction schedule with
  | nil => intro st h; exact h
  | cons w schedule ih => intro st h; exact ih _ (racy_inv_step cv flags T st w h)

theorem hit_count_append (flags : Nat → Int) (l1 l2 : List Nat) :
    hit_count flags (l1 ++ l2) = hit_count flags l1 + hit_count flags l2 := by
  simp [hit_count, List.filter_append]

theorem team_pending_start (flags : Nat → Int) (chunks : List (List Nat)) :
    team_pending flags (team_start D chunks) = hit_count flags chunks.flatten := by
  induction chunks with
  | nil => rfl
  | cons c chunks ih =>
    simp only [team_pending, team_start, List.map_cons, List.sum_cons, List.flatten_cons,
      hit_count_append, pending_at_test] at ih ⊢
    rw [ih]

theorem racy_inv_start (g : Globals F D) (chunks : List (List Nat)) (N : Nat)
    (hpart : chunks.flatten.Perm (List.range N)) :
    racy_inv g.detection_results
      (g.detected_objects_with_race_handling +
        (hit_count g.detection_results (List.range N) : Int))
      (g, team_start D chunks) := by
  refine ⟨rfl, ?_, ?_⟩
  · show _ + (team_pending g.detection_results (team_start D chunks) : Int) ≤ _
    rw [team_pending_start, hit_count_perm _ hpart]
  · intro wk hwk r hr
    simp only [team_start, List.mem_map] at hwk
    obtain ⟨c, _, rfl⟩ := hwk
    cases hr

/-- At the end of the region, and after every prefix of the interleaving, the
racy counter is at most its start value plus the number of nonzero flags. -/
theorem racy_count_le_hits [Add D] (cv : Conv F D) (N : Nat) (chunks : List (List Nat))
    (schedule : List Nat) (g : Globals F D) (hpart : chunks.flatten.Perm (List.range N)) :
    (schedule.foldl (team_step cv) (g, team_start D chunks)).1.detected_objects_with_race_handling
      ≤ g.detected_objects_with_race_handling +
          (hit_count g.detection_results (List.range N) : Int) := by
  have h := racy_inv_fold cv _ _ schedule _ (racy_inv_start g chunks N hpart)
  have := h.2.1
  omega

/-! ### Every thread reaches the end of its chunk -/

theorem steps_left_at_test (l : List Nat) :
    steps_left ({ todo := l, phase := Phase.at_test } : Worker D) = 5 * l.length := by
  cases l with
  | nil => rfl
  | cons i rest => simp only [steps_left, List.length_cons]; omega

theorem racy_step_left [Add D] (cv : Conv F D) (g : Globals F D) (wk : Worker D) :
    steps_left (racy_step cv g wk).2 ≤ steps_left wk - 1 := by
  obtain ⟨todo, phase⟩ := wk
  cases todo with
  | nil => exact Nat.zero_le _
  | cons i rest =>
    cases phase with
    | at_test =>
      by_cases h : g.detection_results i = 0
      · have e : racy_step cv g { todo := i :: rest, phase := Phase.at_test } =
            (g, { todo := rest, phase := Phase.at_test }) := by
          simp [racy_step, detect_object, h]
        rw [e]
        show steps_left ({ todo := rest, phase := Phase.at_test } : Worker D) ≤ _
        rw [steps_left_at_test]
        simp only [steps_left]
        omega
      · have e : racy_step cv g { todo := i :: rest, phase := Phase.at_test } =
            (g, { todo := i :: rest, phase := Phase.at_count }) := by
          simp [racy_step, detect_object, h]
        rw [e]
        simp only [steps_left]
        omega
    | at_count => simp only [racy_step, steps_left]; omega
    | loaded_count r => simp only [racy_step, steps_left]; omega
    | at_score => simp only [racy_step, steps_left]; omega
    | loaded_score s =>
      show steps_left ({ todo := rest, phase := Phase.at_test } : Worker D) ≤ _
      rw [steps_left_at_test]
      simp only [steps_left]
      omega

theorem team_step_left [Add D] (cv : Conv F D) (st : Globals F D × List (Worker D))
    (w v : Nat) :
    team_left (team_step cv st w).2 v ≤ team_left st.2 v ∧
    team_left (team_step cv st w).2 w ≤ team_left st.2 w - 1 := by
  obtain ⟨g, ws⟩ := st
  unfold team_step
  cases hw : ws[w]? with
  | none =>
    simp only [hw]
    exact ⟨Nat.le_refl _, by simp [team_left, hw]⟩
  | some wk =>
    simp only [hw]
    have hlt : w < ws.length := (List.getElem?_eq_some.1 hw).1
    have hstep := racy_step_left cv g wk
    have hself : team_left (ws.set w (racy_step cv g wk).2) w ≤ team_left ws w - 1 := by
      simp only [team_left, List.getElem?_set, hlt, if_true, hw]
      exact hstep
    refine ⟨?_, hself⟩
    by_cases hvw : w = v
    · subst hvw
      exact le_trans hself (Nat.sub_le _ _)
    · simp only [team_left, List.getElem?_set_ne hvw]
      exact Nat.le_refl _

theorem team_fold_left [Add D] (cv : Conv F D) (schedule : List Nat) (v : Nat) :
    ∀ st : Globals F D × List (Worker D),
      team_left (schedule.foldl (team_step cv) st).2 v ≤ team_left st.2 v := by
  induction schedule with
  | nil => intro st; exact Nat.le_refl _
  | cons w schedule ih =>
    intro st
    exact le_trans (ih _) (team_step_left cv st w v).1

theorem team_replicate_left [Add D] (cv : Conv F D) (w : Nat) (n : Nat) :
    ∀ st : Globals F D × List (Worker D),
      team_left ((List.replicate n w).foldl (team_step cv) st).2 w ≤ team_left st.2 w - n := by
  induction n with
  | zero => intro st; exact Nat.le_refl _
  | succ n ih =>
    intro st
    simp only [List.replicate_succ, List.foldl_cons]
    have h1 := ih (team_step cv st w)
    have h2 := (team_step_left cv st w w).2
    omega

theorem team_barrier_left [Add D] (cv : Conv F D) (chunks : List (List Nat)) (k : Nat) :
    ∀ st : Globals F D × List (Worker D),
      (∀ v, team_left st.2 v ≤ 5 * (chunks.getD v []).length) →
      ∀ v, v < k →
        team_left ((((List.range k).map
          (fun w => List.replicate (5 * (chunks.getD w []).length) w)).flatten).foldl
            (team_step cv) st).2 v = 0 := by
  induction k with
  | zero => intro st _ v hv; omega
  | succ k ih =>
    intro st hst v hv
    rw [List.range_succ, List.map_append, List.flatten_append, List.foldl_append]
    simp only [List.map_cons, List.map_nil, List.flatten_cons, List.flatten_nil,
      List.append_nil]
    by_cases hvk : v = k
    · subst hvk
      have h1 := team_replicate_left cv v (5 * (chunks.getD v []).length)
        ((((List.range v).map
          (fun w => List.replicate (5 * (chunks.getD w []).length) w)).flatten).foldl
            (team_step cv) st)
      have h2 := team_fold_left cv (((List.range v).map
          (fun w => List.replicate (5 * (chunks.getD w []).length) w)).flatten) v st
      have h3 := hst v
      omega
    · have h1 := ih st hst v (by omega)
      have h2 := team_fold_left cv (List.replicate (5 * (chunks.getD k []).length) k) v
        ((((List.range k).map
          (fun w => List.replicate (5 * (chunks.getD w []).length) w)).flatten).foldl
            (team_step cv) st)
      omega

theorem team_step_length [Add D] (cv : Conv F D) (st : Globals F D × List (Worker D))
    (w : Nat) : (team_step cv st w).2.length = st.2.length := by
  unfold team_step
  cases hw : st.2[w]? with
  | none => rfl
  | some wk => simp only [List.length_set]

theorem team_fold_length [Add D] (cv : Conv F D) (schedule : List Nat) :
    ∀ st : Globals F D × List (Worker D),
      (schedule.foldl (team_step cv) st).2.length = st.2.length := by
  induction schedule with
  | nil => intro st; rfl
  | cons w schedule ih => intro st; exact (ih _).trans (team_step_length cv st w)

theorem team_left_start (chunks : List (List Nat)) (v : Nat) :
    team_left (team_start D chunks) v ≤ 5 * (chunks.getD v []).length := by
  simp only [team_left, team_start, List.getElem?_map, List.getD_eq_getElem?_getD]
  cases chunks[v]? with
  | none => exact Nat.zero_le _
  | some c =>
    simp only [Option.map_some', Option.getD_some]
    rw [steps_left_at_test]

theorem steps_left_zero (wk : Worker D) (h : steps_left wk = 0) : wk.todo = [] := by
  obtain ⟨todo, phase⟩ := wk
  cases todo with
  | nil => rfl
  | cons i rest => cases phase <;> simp [steps_left] at h

/-- When the parallel region ends every thread has run all its iterations. -/
theorem racy_team_finished [Add D] (cv : Conv F D) (chunks : List (List Nat))
    (schedule : List Nat) (g : Globals F D) :
    ∀ wk, wk ∈ (racy_team cv chunks schedule g).2 → wk.todo = [] := by
  intro wk hwk
  obtain ⟨v, hv⟩ := List.mem_iff_getElem?.1 hwk
  have hlen : (racy_team cv chunks schedule g).2.length = chunks.length := by
    unfold racy_team
    rw [team_fold_length]
    simp [team_start]
  have hvlt : v < chunks.length := by
    rw [← hlen]
    exact (List.getElem?_eq_some.1 hv).1
  have h0 : team_left (racy_team cv chunks schedule g).2 v = 0 := by
    unfold racy_team run_to_barrier
    rw [List.foldl_append]
    apply team_barrier_left cv chunks chunks.length _ _ v hvlt
    intro u
    exact le_trans (team_fold_left cv schedule u _) (team_left_start chunks u)
  apply steps_left_zero
  simpa [team_left, hv] using h0

/-! ### The bound, and a lost update -/

theorem list_set_self {α : Type} (l : List α) :
    ∀ (n : Nat) (a : α), l[n]? = some a → l.set n a = l := by
  induction l with
  | nil => intro n a _; rfl
  | cons b l ih =>
    intro n a h
    cases n with
    | zero =>
      simp only [List.getElem?_cons_zero, Option.some.injEq] at h
      rw [List.set_cons_zero, h]
    | succ n =>
      simp only [List.getElem?_cons_succ] at h
      rw [List.set_cons_succ, ih n a h]

/-- A team whose threads are all done does nothing more. -/
theorem team_fold_finished [Add D] (cv : Conv F D) (schedule : List Nat) :
    ∀ st : Globals F D × List (Worker D), (∀ wk, wk ∈ st.2 → wk.todo = []) →
      schedule.foldl (team_step cv) st = st := by
  induction schedule with
  | nil => intro st _; rfl
  | cons w schedule ih =>
    intro st hst
    have hstep : team_step cv st w = st := by
      obtain ⟨g, ws⟩ := st
      unfold team_step
      cases hw : ws[w]? with
      | none => rfl
      | some wk =>
        have hdone : wk.todo = [] := hst wk (List.getElem?_mem hw)
        have e : racy_step cv g wk = (g, wk) := by
          obtain ⟨todo, phase⟩ := wk
          simp only at hdone
          subst hdone
          rfl
        simp only [hw, e, list_set_self ws w wk hw]
    rw [List.foldl_cons, hstep]
    exact ih st hst

/-- With the interleaving `lost_update_schedule` a team of any size `W ≥ 2`
counts one object where two are detected. -/
theorem lost_update_count (W : Nat) :
    (racy_loop exact_conv (lost_update_chunks W) lost_update_schedule
      all_detected).detected_objects_with_race_handling = 1 := by
  have hrun :
      (lost_update_schedule.foldl (team_step exact_conv)
        (all_detected, team_start ℚ (lost_update_chunks W))).1.detected_objects_with_race_handling
          = 1 ∧
      (lost_update_schedule.foldl (team_step exact_conv)
        (all_detected, team_start ℚ (lost_update_chunks W))).2 =
      { todo := [], phase := Phase.at_test } :: { todo := [], phase := Phase.at_test } ::
        (List.replicate (W - 2) []).map
          (fun c => ({ todo := c, phase := Phase.at_test } : Worker ℚ)) := by
    simp only [lost_update_schedule, lost_update_chunks, team_start, List.map_cons,
      List.foldl_cons, List.foldl_nil, team_step, List.getElem?_cons_zero,
      List.getElem?_cons_succ, List.set_cons_zero, List.set_cons_succ, racy_step,
      detect_object, all_detected, ne_eq, one_ne_zero, not_false_eq_true, if_true]
    exact ⟨rfl, trivial⟩
  have hfin : ∀ wk, wk ∈ (lost_update_schedule.foldl (team_step exact_conv)
      (all_detected, team_start ℚ (lost_update_chunks W))).2 → wk.todo = [] := by
    intro wk hwk
    rw [hrun.2] at hwk
    simp only [List.mem_cons, List.mem_map, List.mem_replicate] at hwk
    rcases hwk with rfl | rfl | ⟨c, ⟨_, rfl⟩, rfl⟩ <;> rfl
  unfold racy_loop racy_team
  rw [List.foldl_append, team_fold_finished exact_conv _ _ hfin]
  exact hrun.1

/-- C4: in every interleaving of the memory actions of a team of `W ≥ 2`
threads whose chunks partition `[0, N)`, each update of the shared counter
being a load followed by a store of the loaded value plus one, the first
parallel loop ends (every thread has run all its iterations) with
`detected_objects_with_race_handling` at most the count of the sequential loop,
both started from equal counters; and for a team of that size there are a
dataset and an interleaving for which it is strictly less. -/
theorem racy_count_le_sequential [Add D] (cv : Conv F D) (N : Nat)
    (chunks : List (List Nat)) (schedule : List Nat) (g : Globals F D)
    (hW : 2 ≤ chunks.length) (hpart : chunks.flatten.Perm (List.range N))
    (hc : g.detected_objects_with_race_handling = g.detected_objects_sequential) :
    ((racy_loop cv chunks schedule g).detected_objects_with_race_handling ≤
        (sequential_loop cv N g).detected_objects_sequential ∧
      ∀ wk, wk ∈ (racy_team cv chunks schedule g).2 → wk.todo = []) ∧
    ∃ (g0 : Globals ℚ ℚ) (N0 : Nat) (chunks0 : List (List Nat)) (schedule0 : List Nat),
      chunks0.length = chunks.length ∧ chunks0.flatten.Perm (List.range N0) ∧
      g0.detected_objects_with_race_handling = g0.detected_objects_sequential ∧
      (racy_loop exact_conv chunks0 schedule0 g0).detected_objects_with_race_handling <
        (sequential_loop exact_conv N0 g0).detected_objects_sequential := by
  refine ⟨⟨?_, racy_team_finished cv chunks schedule g⟩, ?_⟩
  · rw [sequential_count_hits, ← hc]
    exact racy_count_le_hits cv N chunks _ g hpart
  · refine ⟨all_detected, 2, lost_update_chunks chunks.length, lost_update_schedule,
      ?_, ?_, rfl, ?_⟩
    · simp only [lost_update_chunks, List.length_cons, List.length_replicate]
      omega
    · have e : (lost_update_chunks chunks.length).flatten = [0, 1] := by
        simp [lost_update_chunks]
      rw [e]
      decide
    · rw [lost_update_count]
      decide

/-- Witness of C4: two threads on the dataset of four objects. -/
theorem racy_count_le_sequential_witness :
    (2 ≤ [[0, 1], [2, 3]].length ∧ [[0, 1], [2, 3]].flatten.Perm (List.range 4) ∧
      sample_globals.detected_objects_with_race_handling =
        sample_globals.detected_objects_sequential) ∧
    (racy_loop exact_conv [[0, 1], [2, 3]] [0, 0, 1, 1, 0, 1]
        sample_globals).detected_objects_with_race_handling ≤
      (sequential_loop exact_conv 4 sample_globals).detected_objects_sequential :=
  ⟨⟨by decide, by decide, rfl⟩,
    (racy_count_le_sequential exact_conv 4 [[0, 1], [2, 3]] [0, 0, 1, 1, 0, 1] sample_globals
      (by decide) (by decide) rfl).1.1⟩

end RacyTheorems

end ObjectDetection
